import Mathlib

/-!
Verification development for the yuzuthread worker library:
a shallow embedding of its transport codec (`encodeValue` / `decodeValue`),
shared-memory manager (`hasSharedMemorySegments`, `calculateSharedMemorySize`,
`toShared`, the `@Shared` decorator check) and RPC session bookkeeping
(`initWorker`'s `callWorkerMethod` / result handler / `finalize`), together
with theorems about the specified properties.
-/

namespace Yuzu

/-! ## Data model

JS runtime values are embedded as an inductive `Value`.  Object identity
(which JS has and pure trees do not) is modelled by an `oid : Nat` tag on
every heap-allocated value; `SharedArrayBuffer` regions additionally carry a
region id `rid` which is their cross-thread identity. -/

/-- Primitive JS values (numbers, strings, booleans). -/
inductive Prim where
  | num (n : Int)
  | str (s : String)
  | bool (b : Bool)
  deriving DecidableEq, Repr

/-- A `SharedArrayBuffer` region: identity `rid` plus its byte contents. -/
structure Region where
  rid : Nat
  bytes : List Nat
  deriving DecidableEq, Repr

/-- Backing store of a Node `Buffer`: either owned plain memory or a
view (`byteOffset`/`byteLength`) into a `SharedArrayBuffer` region. -/
inductive BufStore where
  | owned (bytes : List Nat)
  | shared (region : Region) (off len : Nat)
  deriving DecidableEq, Repr

/-- A reference to a JS class, as it appears in `design:type` metadata and
transporter factories. `objectC` is the generic `Object`; `builtinC` covers
the members of `BUILTIN_TYPES`/`TYPED_ARRAYS` other than
`SharedArrayBuffer` (which is `sabC`); `Buffer` is `bufferC` (not a builtin
in the source's sense); `userC` is a user-defined class identified by name. -/
inductive TypeRef where
  | objectC
  | builtinC (name : String)
  | bufferC
  | sabC
  | userC (name : String)
  deriving DecidableEq, Repr

/-- `isBuiltinType` from `type-helpers.ts`: `null`/`undefined` count as
builtin; `Object` and `Buffer` do not; `SharedArrayBuffer` and the named
builtins/typed arrays do. -/
def isBuiltinTypeOpt : Option TypeRef → Bool
  | none => true
  | some .objectC => false
  | some (.builtinC _) => true
  | some .bufferC => false
  | some .sabC => true
  | some (.userC _) => false

/-- `cls.name` for a `TypeRef` (used for the `__className` wire field). -/
def TypeRef.name : TypeRef → String
  | .objectC => "Object"
  | .builtinC n => n
  | .bufferC => "Buffer"
  | .sabC => "SharedArrayBuffer"
  | .userC n => n

/-- Embedded JS values.

* `vNull` — `null`/`undefined` (the absent value).
* `vPrim` — primitives.
* `vBytes` — a `Uint8Array` (typed array) with its byte contents.
* `vBuiltinObj` — an instance of a builtin class (`Date`, `Map`, …),
  payload opaque to all the code modelled here.
* `vArray`, `vBuffer`, `vSab` — arrays, Node buffers, shared regions.
* `vStruct` — a typed-struct class instance: class name, its raw backing
  buffer, and its extra (non-layout) own enumerable fields.
* `vObject` — a class instance (`cls = some name`) or plain object
  (`cls = none`) with its own enumerable fields. -/
inductive Value where
  | vNull
  | vPrim (p : Prim)
  | vBytes (oid : Nat) (bytes : List Nat)
  | vBuiltinObj (oid : Nat) (clsName : String)
  | vArray (oid : Nat) (elems : List Value)
  | vBuffer (oid : Nat) (store : BufStore)
  | vSab (oid : Nat) (region : Region)
  | vStruct (oid : Nat) (cls : String) (buf : BufStore) (extra : List (String × Value))
  | vObject (oid : Nat) (cls : Option String) (fields : List (String × Value))
  deriving Repr

/-- Encoded buffer payload on the wire: `{data: Uint8Array}` for owned
buffers, `{data: SharedArrayBuffer, byteOffset, byteLength, isShared:true}`
for shared-backed ones. -/
inductive EncBuf where
  | ownedP (bytes : List Nat)
  | sharedP (region : Region) (off len : Nat)
  deriving Repr

/-- Wire values produced by `encodeValue`.  `raw v` is a value passed
through unchanged (no wrapper object exists in JS; the constructor only
marks "not one of the tagged shapes"). The tagged shapes correspond to the
`__type` markers `'Buffer'`, `'SharedArrayBuffer'`, `'TypedStructClass'`
and `'CustomClass'`. -/
inductive Encoded where
  | raw (v : Value)
  | arr (elems : List Encoded)
  | buf (b : EncBuf)
  | sab (oid : Nat) (region : Region)
  | struct (className : String) (sbuf : Option EncBuf) (data : List (String × Encoded))
  | custom (className : String) (data : List (String × Encoded))
  deriving Repr

/-- `TransporterInfo` from `transport-metadata`:
`clsT` is `{type:'class', factory}` with the factory's result (a class, or
`[class]` which sets `isArr`); `encoderT` is `{type:'encoder', encoder}`
with the user-supplied codec functions.

`noopT` — Modelled from the spec: the `TransportNoop` (`Suppressed`)
transporter is referenced by the repository's tests and fixtures
(`tests/fixtures/transport-noop.worker.ts`, `@TransportNoop()`), but its
declaration and its handling inside the codec are not among the source
files; per the spec, encode ignores the input and yields the absent value,
and decode of anything under this descriptor yields the absent value. -/
inductive TransporterInfo where
  | clsT (isArr : Bool) (target : TypeRef)
  | encoderT (enc : Value → Encoded) (dec : Encoded → Value)
  | noopT

/-- Metadata attached to one property: its `@TransportType`/`@TransportEncoder`
transporter (if decorated) and its `design:type`. -/
structure PropMeta where
  transporter : Option TransporterInfo
  designType : Option TypeRef

/-- Reflection data for one user class: `structFields = some F` iff the
class is (or extends) a typed-struct class whose layout field names are
`F`; `props` is the per-property metadata, keyed by property name. -/
structure ClassInfo where
  structFields : Option (List String)
  props : List (String × PropMeta)

/-- The process-wide reflection environment: user class name ↦ info. -/
def ClassEnv := List (String × ClassInfo)

def lookupClass (env : ClassEnv) (n : String) : Option ClassInfo :=
  (List.find? (fun p => p.1 = n) env).map Prod.snd

/-- `getTypedStructInfo` (type-helpers.ts): the layout field names if the
class is a typed-struct class. -/
def getTypedStructInfo (env : ClassEnv) : Option TypeRef → Option (List String)
  | some (.userC n) => (lookupClass env n).bind (·.structFields)
  | _ => none

/-- `getPropertyTransporter` (transport-metadata.ts), looked up on the
prototype of a class. -/
def getPropertyTransporter (env : ClassEnv) (c : TypeRef) (key : String) :
    Option TransporterInfo :=
  match c with
  | .userC n =>
    match (lookupClass env n).bind (fun i => (List.find? (fun p => p.1 = key) i.props)) with
    | some (_, m) => m.transporter
    | none => none
  | _ => none

/-- `Reflect.getMetadata('design:type', proto, key)`. -/
def getPropertyDesignType (env : ClassEnv) (c : TypeRef) (key : String) :
    Option TypeRef :=
  match c with
  | .userC n =>
    match (lookupClass env n).bind (fun i => (List.find? (fun p => p.1 = key) i.props)) with
    | some (_, m) => m.designType
    | none => none
  | _ => none

/-! ## Transport codec

Shallow embedding of `encodeValue` / `decodeValue` (transport.ts, the
variant with `SharedArrayBuffer` support and `createTypedStructInstance`).
`path` is the error-message context threaded through exactly as in the
source.  JS exceptions are modelled by `Except CodecErr`. -/

inductive CodecErr where
  | rawOnNonStruct (path : List String)
  | notTypedStruct (path : List String)
  | bufferBounds (path : List String)
  deriving Repr

/-- Target-class resolution: a `'class'` transporter's factory result wins
(`[cls]` sets the array flag); otherwise `design:type` is used unless it is
the generic `Object`. -/
def resolveTarget (t : Option TransporterInfo) (d : Option TypeRef) :
    Bool × Option TypeRef :=
  match t with
  | some (.clsT isArr target) => (isArr, some target)
  | _ =>
    match d with
    | some dt => if dt = .objectC then (false, none) else (false, some dt)
    | none => (false, none)

/-- `Object.keys(value)`'s own enumerable properties, with their values.
Typed-struct layout fields live in the backing buffer and are modelled
outside this list. -/
def objectKeys : Value → List (String × Value)
  | .vStruct _ _ _ extra => extra
  | .vObject _ _ fields => fields
  | _ => []

/-- The struct backing buffer `structInfo.structCls.raw(value)`; `none`
when the value has no struct storage (in which case the source would fail). -/
def structStorage : Value → Option BufStore
  | .vStruct _ _ buf _ => some buf
  | _ => none

/-- Wire form of a struct/raw buffer: shared backing is passed as the
`SharedArrayBuffer` itself plus view offset/length; owned backing is copied
into a `Uint8Array`. -/
def encBufOf : BufStore → EncBuf
  | .shared r off len => .sharedP r off len
  | .owned bytes => .ownedP bytes

mutual

/-- `encodeValue` from transport.ts: the `null`/`undefined` pass-through,
the custom-encoder branch and the (spec-modelled) `TransportNoop` branch,
then target-class resolution; the per-shape dispatch continues in
`encodeValueCore` (split only so the termination checker sees a single
match on the value). -/
def encodeValue (env : ClassEnv) (v : Value) (t : Option TransporterInfo)
    (d : Option TypeRef) (path : List String) : Except CodecErr Encoded :=
  match v with
  | .vNull => .ok (.raw .vNull)
  | w =>
    match t with
    | some (.encoderT enc _) => .ok (enc w)
    | some .noopT => .ok (.raw .vNull)
    | _ => encodeValueCore env w (resolveTarget t d) path
termination_by (sizeOf v, 1)

/-- Body of `encodeValue` after target resolution: arrays, buffers,
`SharedArrayBuffer`s, the builtin pass-through, then the
typed-struct/custom-class branches. -/
def encodeValueCore (env : ClassEnv) (v : Value) (it : Bool × Option TypeRef)
    (path : List String) : Except CodecErr Encoded :=
  match v with
  | .vArray _ elems =>
    match it.1, it.2 with
    | true, some c =>
      (encodeArr env elems (some (.clsT false c)) (some c) path 0).map .arr
    | _, _ =>
      (encodeArr env elems none none path 0).map .arr
  | .vBuffer _ store => .ok (.buf (encBufOf store))
  | .vSab oid r => .ok (.sab oid r)
  | .vStruct oid cls buf extra =>
    if isBuiltinTypeOpt it.2 then .ok (.raw (.vStruct oid cls buf extra))
    else
      match it.2 with
      | none => .ok (.raw (.vStruct oid cls buf extra))
      | some c =>
        match getTypedStructInfo env (some c) with
        | some f =>
          (encodeFields env c f extra path).map
            (fun data => .struct c.name (some (encBufOf buf)) data)
        | none =>
          (encodeFields env c [] extra path).map
            (fun data => .custom c.name data)
  | .vObject oid cls fields =>
    if isBuiltinTypeOpt it.2 then .ok (.raw (.vObject oid cls fields))
    else
      match it.2 with
      | none => .ok (.raw (.vObject oid cls fields))
      | some c =>
        match getTypedStructInfo env (some c) with
        | some _ => .error (.rawOnNonStruct path)
        | none =>
          (encodeFields env c [] fields path).map
            (fun data => .custom c.name data)
  | .vBytes oid bytes =>
    if isBuiltinTypeOpt it.2 then .ok (.raw (.vBytes oid bytes))
    else
      match it.2 with
      | none => .ok (.raw (.vBytes oid bytes))
      | some c =>
        match getTypedStructInfo env (some c) with
        | some _ => .error (.rawOnNonStruct path)
        | none => .ok (.custom c.name [])
  | .vBuiltinObj oid n =>
    if isBuiltinTypeOpt it.2 then .ok (.raw (.vBuiltinObj oid n))
    else
      match it.2 with
      | none => .ok (.raw (.vBuiltinObj oid n))
      | some c =>
        match getTypedStructInfo env (some c) with
        | some _ => .error (.rawOnNonStruct path)
        | none => .ok (.custom c.name [])
  | w => .ok (.raw w)
termination_by (sizeOf v, 0)

/-- Elementwise encoding of an array (`value.map((item, idx) => ...)`). -/
def encodeArr (env : ClassEnv) (elems : List Value) (t : Option TransporterInfo)
    (d : Option TypeRef) (path : List String) (idx : Nat) :
    Except CodecErr (List Encoded) :=
  match elems with
  | [] => .ok []
  | e :: rest => do
    let x ← encodeValue env e t d (path ++ ["[" ++ toString idx ++ "]"])
    let xs ← encodeArr env rest t d path (idx + 1)
    .ok (x :: xs)
termination_by (sizeOf elems, 0)

/-- Per-property encoding loop over `Object.keys(value)`; `skip` is the set
of typed-struct layout fields skipped by `structInfo.fields.has(key)`. -/
def encodeFields (env : ClassEnv) (c : TypeRef) (skip : List String)
    (kvs : List (String × Value)) (path : List String) :
    Except CodecErr (List (String × Encoded)) :=
  match kvs with
  | [] => .ok []
  | (k, x) :: rest =>
    if skip.contains k then encodeFields env c skip rest path
    else do
      let e ← encodeValue env x (getPropertyTransporter env c k)
        (getPropertyDesignType env c k) (path ++ [k])
      let es ← encodeFields env c skip rest path
      .ok ((k, e) :: es)
termination_by (sizeOf kvs, 0)

end

/-- `Buffer.from(sab, byteOffset || 0, byteLength || sab.byteLength)` with
Node's range check. -/
def bufferFromRegion (r : Region) (off len : Nat) (path : List String) :
    Except CodecErr BufStore :=
  let len' := if len = 0 then r.bytes.length else len
  if off + len' ≤ r.bytes.length then .ok (.shared r off len')
  else .error (.bufferBounds path)

/-- A buffer copy (`clone = true` construction copies the source bytes
into fresh owned storage). -/
def cloneStore : BufStore → BufStore
  | .owned bytes => .owned bytes
  | .shared r off len => .owned ((r.bytes.drop off).take len)

/-- `createTypedStructInstance(cls, buffer, clone)`
(typed-struct-registry.ts): constructs a fresh instance of the struct class
backed by `buffer` (aliased when `clone = false`, copied when `true`);
without a buffer the struct allocates default storage. Codec-created
objects carry `oid 0`: no claim concerns their object identity. -/
def createTypedStructInstance (c : TypeRef) (buffer : Option BufStore)
    (clone : Bool) : Value :=
  match buffer with
  | some b => .vStruct 0 c.name (if clone then cloneStore b else b) []
  | none => .vStruct 0 c.name (.owned []) []

/-- JS property assignment `obj[k] = v` on an assoc list. -/
def setKey : List (String × Value) → String → Value → List (String × Value)
  | [], k, v => [(k, v)]
  | (k', v') :: rest, k, v =>
    if k' = k then (k, v) :: rest else (k', v') :: setKey rest k v

mutual

/-- The literal JS object a tagged `Encoded` is: used where the source
returns the encoded value unchanged because no branch matched ("return
encoded").  A `raw` value on the wire is just itself. -/
def encodedAsValue : Encoded → Value
  | .raw v => v
  | .arr es => .vArray 0 (encodedAsValueList es)
  | .buf (.ownedP bytes) =>
    .vObject 0 none
      [("__type", .vPrim (.str "Buffer")), ("data", .vBytes 0 bytes),
       ("isShared", .vPrim (.bool false))]
  | .buf (.sharedP r off len) =>
    .vObject 0 none
      [("__type", .vPrim (.str "Buffer")), ("data", .vSab 0 r),
       ("byteOffset", .vPrim (.num off)), ("byteLength", .vPrim (.num len)),
       ("isShared", .vPrim (.bool true))]
  | .sab oid r =>
    .vObject 0 none
      [("__type", .vPrim (.str "SharedArrayBuffer")), ("data", .vSab oid r)]
  | .struct cn sbuf data =>
    .vObject 0 none
      ([("__type", .vPrim (.str "TypedStructClass")),
        ("__className", .vPrim (.str cn))] ++
       (match sbuf with
        | some (.ownedP bytes) => [("structBuffer", .vBytes 0 bytes)]
        | some (.sharedP r _ _) => [("structBuffer", .vSab 0 r)]
        | none => []) ++
       [("data", .vObject 0 none (encodedAsValueFields data))])
  | .custom cn data =>
    .vObject 0 none
      [("__type", .vPrim (.str "CustomClass")), ("__className", .vPrim (.str cn)),
       ("data", .vObject 0 none (encodedAsValueFields data))]

def encodedAsValueList : List Encoded → List Value
  | [] => []
  | e :: rest => encodedAsValue e :: encodedAsValueList rest

def encodedAsValueFields : List (String × Encoded) → List (String × Value)
  | [] => []
  | (k, e) :: rest => (k, encodedAsValue e) :: encodedAsValueFields rest

end

/-! Size measures used only as termination measures for the decoder
(a naked value on the wire weighs the same wrapped or not). -/

mutual

def valSize : Value → Nat
  | .vNull => 1
  | .vPrim _ => 1
  | .vBytes _ _ => 1
  | .vBuiltinObj _ _ => 1
  | .vArray _ es => 1 + valSizeL es
  | .vBuffer _ _ => 1
  | .vSab _ _ => 1
  | .vStruct _ _ _ extra => 1 + valSizeF extra
  | .vObject _ _ fs => 1 + valSizeF fs

def valSizeL : List Value → Nat
  | [] => 0
  | v :: rest => 1 + valSize v + valSizeL rest

def valSizeF : List (String × Value) → Nat
  | [] => 0
  | (_, v) :: rest => 1 + valSize v + valSizeF rest

end

mutual

def encSize : Encoded → Nat
  | .raw v => valSize v
  | .arr es => 1 + encSizeL es
  | .buf _ => 1
  | .sab _ _ => 1
  | .struct _ _ data => 1 + encSizeF data
  | .custom _ data => 1 + encSizeF data

def encSizeL : List Encoded → Nat
  | [] => 0
  | e :: rest => 1 + encSize e + encSizeL rest

def encSizeF : List (String × Encoded) → Nat
  | [] => 0
  | (_, e) :: rest => 1 + encSize e + encSizeF rest

end

mutual

/-- `decodeValue` from transport.ts: the `null`/`undefined` pass-through,
the custom-decoder branch and the (spec-modelled) `TransportNoop` branch,
then target-class resolution; the per-shape dispatch continues in
`decodeValueCore`. -/
def decodeValue (env : ClassEnv) (e : Encoded) (t : Option TransporterInfo)
    (d : Option TypeRef) (path : List String) : Except CodecErr Value :=
  match e with
  | .raw .vNull => .ok .vNull
  | w =>
    match t with
    | some (.encoderT _ dec) => .ok (dec w)
    | some .noopT => .ok .vNull
    | _ => decodeValueCore env w (resolveTarget t d) path
termination_by 2 * encSize e + 1
decreasing_by all_goals simp_wf

/-- Body of `decodeValue` after target resolution: wire arrays (tagged or
naked), the tagged `Buffer`/`SharedArrayBuffer`/`TypedStructClass`/
`CustomClass` shapes, and the default "return encoded unchanged".
A naked object on the wire which itself carries a literal `__type` key is
not re-interpreted by this model (`encodeValue` never emits one). -/
def decodeValueCore (env : ClassEnv) (e : Encoded) (it : Bool × Option TypeRef)
    (path : List String) : Except CodecErr Value :=
  match e with
  | .arr es =>
    match it.1, it.2 with
    | true, some c =>
      (decodeArr env es (some (.clsT false c)) (some c) path 0).map (.vArray 0)
    | _, _ =>
      (decodeArr env es none none path 0).map (.vArray 0)
  | .raw (.vArray _ vs) =>
    match it.1, it.2 with
    | true, some c =>
      (decodeRawList env vs (some (.clsT false c)) (some c) path 0).map (.vArray 0)
    | _, _ =>
      (decodeRawList env vs none none path 0).map (.vArray 0)
  | .buf (.sharedP r off len) =>
    (bufferFromRegion r off len path).map (.vBuffer 0)
  | .buf (.ownedP bytes) => .ok (.vBuffer 0 (.owned bytes))
  | .sab oid r => .ok (.vSab oid r)
  | .struct cn sbuf data =>
    match it.2 with
    | some c =>
      match getTypedStructInfo env (some c) with
      | none => .error (.notTypedStruct path)
      | some _ => do
        let bc : Option BufStore × Bool ←
          match sbuf with
          | some (.sharedP r off len) =>
            (bufferFromRegion r off len path).map (fun b => (some b, false))
          | some (.ownedP bytes) => .ok (some (.owned bytes), true)
          | none => .ok (none, true)
        let inst := createTypedStructInstance c bc.1 bc.2
        let fields ← decodeAssign env c (objectKeys inst) data path
        match inst with
        | .vStruct oid nm buf _ => .ok (.vStruct oid nm buf fields)
        | w => .ok w
    | none => .ok (encodedAsValue (.struct cn sbuf data))
  | .custom cn data =>
    match it.2 with
    | some c =>
      (decodeAssign env c [] data path).map (fun fields =>
        .vObject 0 (some c.name) fields)
    | none => .ok (encodedAsValue (.custom cn data))
  | .raw v => .ok v
termination_by 2 * encSize e
decreasing_by all_goals (simp_wf; try (first | omega | (simp only [encSize, encSizeL, encSizeF, valSize, valSizeL, valSizeF]; omega)))

/-- Elementwise decoding of a wire array. -/
def decodeArr (env : ClassEnv) (es : List Encoded) (t : Option TransporterInfo)
    (d : Option TypeRef) (path : List String) (idx : Nat) :
    Except CodecErr (List Value) :=
  match es with
  | [] => .ok []
  | e :: rest => do
    let x ← decodeValue env e t d (path ++ ["[" ++ toString idx ++ "]"])
    let xs ← decodeArr env rest t d path (idx + 1)
    .ok (x :: xs)
termination_by 2 * encSizeL es
decreasing_by all_goals (simp_wf; try (first | omega | (simp only [encSize, encSizeL, encSizeF, valSize, valSizeL, valSizeF]; omega)))

/-- Elementwise decoding of a naked array on the wire (its elements are
naked values). -/
def decodeRawList (env : ClassEnv) (vs : List Value) (t : Option TransporterInfo)
    (d : Option TypeRef) (path : List String) (idx : Nat) :
    Except CodecErr (List Value) :=
  match vs with
  | [] => .ok []
  | v :: rest => do
    let x ← decodeValue env (.raw v) t d (path ++ ["[" ++ toString idx ++ "]"])
    let xs ← decodeRawList env rest t d path (idx + 1)
    .ok (x :: xs)
termination_by 2 * valSizeL vs
decreasing_by all_goals (simp_wf; try (first | omega | (simp only [encSize, encSizeL, encSizeF, valSize, valSizeL, valSizeF]; omega)))

/-- The `instance[key] = await decodeValue(...)` assignment loop over
`Object.keys(encoded.data)`. -/
def decodeAssign (env : ClassEnv) (c : TypeRef) (acc : List (String × Value))
    (data : List (String × Encoded)) (path : List String) :
    Except CodecErr (List (String × Value)) :=
  match data with
  | [] => .ok acc
  | (k, e) :: rest => do
    let v ← decodeValue env e (getPropertyTransporter env c k)
      (getPropertyDesignType env c k) (path ++ [k])
    decodeAssign env c (setKey acc k v) rest path
termination_by 2 * encSizeF data
decreasing_by all_goals (simp_wf; try (first | omega | (simp only [encSize, encSizeL, encSizeF, valSize, valSizeL, valSizeF]; omega)))

end

/-! ## Behavioural equivalence and codec-compatible shapes -/

mutual

/-- Behavioural view of a value: object identities (`oid`) erased, while
class identity, field values, byte contents and shared-region identity
(`rid`, offset, length) are kept.  Two values are behaviourally equivalent
("same prototype/type identity and same field values") iff their
`stripIds` agree. -/
def stripIds : Value → Value
  | .vNull => .vNull
  | .vPrim p => .vPrim p
  | .vBytes _ b => .vBytes 0 b
  | .vBuiltinObj _ n => .vBuiltinObj 0 n
  | .vArray _ es => .vArray 0 (stripIdsL es)
  | .vBuffer _ s => .vBuffer 0 s
  | .vSab _ r => .vSab 0 r
  | .vStruct _ c b extra => .vStruct 0 c b (stripIdsF extra)
  | .vObject _ c fs => .vObject 0 c (stripIdsF fs)

def stripIdsL : List Value → List Value
  | [] => []
  | v :: rest => stripIds v :: stripIdsL rest

def stripIdsF : List (String × Value) → List (String × Value)
  | [] => []
  | (k, v) :: rest => (k, stripIds v) :: stripIdsF rest

end

/-- A shared view decodes back to itself only when its byte length is
nonzero or the whole region is empty: `decodeValue` rebuilds the view as
`Buffer.from(data, byteOffset || 0, byteLength || data.byteLength)`, so a
zero length falls back to the full region length. -/
def storeOk : BufStore → Bool
  | .owned _ => true
  | .shared r off len =>
    decide (off + len ≤ r.bytes.length) &&
      (decide (len ≠ 0) || decide (r.bytes.length = 0))

/-- Whether an object carries a literal `__type` own property — the key the
wire format reserves; a naked object carrying it would be re-interpreted by
the decoder, so compatible pass-through objects must not use it. -/
def hasTypeKey (fields : List (String × Value)) : Bool :=
  fields.any (fun kv => kv.1 = "__type")

/-- Distinct keys (JS objects cannot have duplicate property names). -/
def nodupKeysF {α : Type} : List (String × α) → Bool
  | [] => true
  | (k, _) :: rest => !(rest.any (fun kv => kv.1 = k)) && nodupKeysF rest

mutual

/-- The supported value/descriptor shapes of the round-trip property:
primitives, `null`, arrays, owned and shared-backed buffers,
`SharedArrayBuffer`s, typed-struct instances with extra fields, plain class
instances, builtin-targeted pass-through data, and nested combinations —
each paired with a descriptor that matches the value (custom-codec and
suppressed descriptors are outside the round-trip contract). -/
def compat (env : ClassEnv) (v : Value) (t : Option TransporterInfo)
    (d : Option TypeRef) : Bool :=
  match v with
  | .vNull => true
  | w =>
    match t with
    | some (.encoderT _ _) => false
    | some .noopT => false
    | _ => compatCore env w (resolveTarget t d)

def compatCore (env : ClassEnv) (v : Value) (it : Bool × Option TypeRef) : Bool :=
  match v with
  | .vNull => true
  | .vPrim _ => true
  | .vBytes _ _ => isBuiltinTypeOpt it.2
  | .vBuiltinObj _ _ => isBuiltinTypeOpt it.2
  | .vArray _ elems =>
    match it.1, it.2 with
    | true, some c => compatL env elems (some (.clsT false c)) (some c)
    | _, _ => compatL env elems none none
  | .vBuffer _ store => storeOk store
  | .vSab _ _ => true
  | .vStruct _ cls buf extra =>
    if isBuiltinTypeOpt it.2 then !(hasTypeKey extra)
    else
      match it.2 with
      | none => false
      | some c =>
        decide (c = .userC cls) &&
        (match getTypedStructInfo env (some c) with
         | some f =>
           storeOk buf && nodupKeysF extra &&
           extra.all (fun kv => !(f.contains kv.1)) &&
           compatF env c extra
         | none => false)
  | .vObject _ clsOpt fields =>
    if isBuiltinTypeOpt it.2 then !(hasTypeKey fields)
    else
      match it.2 with
      | none => false
      | some c =>
        match c with
        | .userC n =>
          (match getTypedStructInfo env (some c) with
           | some _ => false
           | none =>
             decide (clsOpt = some n) && nodupKeysF fields && compatF env c fields)
        | _ => false

def compatL (env : ClassEnv) (vs : List Value) (t : Option TransporterInfo)
    (d : Option TypeRef) : Bool :=
  match vs with
  | [] => true
  | v :: rest => compat env v t d && compatL env rest t d

def compatF (env : ClassEnv) (c : TypeRef) (kvs : List (String × Value)) : Bool :=
  match kvs with
  | [] => true
  | (k, x) :: rest =>
    compat env x (getPropertyTransporter env c k) (getPropertyDesignType env c k) &&
    compatF env c rest

end

/-! ## Round-trip -/

@[simp] theorem exceptBindOk {ε α β : Type} (x : α) (f : α → Except ε β) :
    (Except.ok x : Except ε α) >>= f = f x := rfl

@[simp] theorem exceptBindErr {ε α β : Type} (e : ε) (f : α → Except ε β) :
    (Except.error e : Except ε α) >>= f = .error e := rfl

@[simp] theorem exceptMapOk {ε α β : Type} (f : α → β) (x : α) :
    (Except.ok x : Except ε α).map f = .ok (f x) := rfl

@[simp] theorem exceptMapErr {ε α β : Type} (f : α → β) (e : ε) :
    (Except.error e : Except ε α).map f = .error e := rfl

theorem setKey_absent (acc : List (String × Value)) (k : String) (v : Value)
    (h : acc.any (fun kv => kv.1 = k) = false) :
    setKey acc k v = acc ++ [(k, v)] := by
  induction acc with
  | nil => simp [setKey]
  | cons kv rest ih =>
    obtain ⟨k', v'⟩ := kv
    rw [List.any_cons, Bool.or_eq_false_iff] at h
    have hk : ¬ k' = k := by simpa using h.1
    simp [setKey, hk, ih h.2]

theorem valSize_pos (v : Value) : 1 ≤ valSize v := by
  cases v <;> simp [valSize]

theorem valSizeL_cons (v : Value) (rest : List Value) :
    valSizeL (v :: rest) = 1 + valSize v + valSizeL rest := by
  simp [valSizeL]

theorem valSizeF_cons (k : String) (v : Value) (rest : List (String × Value)) :
    valSizeF ((k, v) :: rest) = 1 + valSize v + valSizeF rest := by
  simp [valSizeF]

theorem encodeValue_eq_core (env : ClassEnv) (v : Value)
    (t : Option TransporterInfo) (d : Option TypeRef) (p : List String)
    (hv : v ≠ .vNull) (ht : t = none ∨ ∃ a c, t = some (.clsT a c)) :
    encodeValue env v t d p = encodeValueCore env v (resolveTarget t d) p := by
  rcases ht with rfl | ⟨a, c, rfl⟩ <;> cases v <;> simp_all [encodeValue]

theorem decodeValue_eq_core (env : ClassEnv) (e : Encoded)
    (t : Option TransporterInfo) (d : Option TypeRef) (p : List String)
    (he : e ≠ .raw .vNull) (ht : t = none ∨ ∃ a c, t = some (.clsT a c)) :
    decodeValue env e t d p = decodeValueCore env e (resolveTarget t d) p := by
  rcases ht with rfl | ⟨a, c, rfl⟩ <;>
    (cases e with
     | raw v => cases v <;> simp_all [decodeValue]
     | _ => simp [decodeValue])

theorem compat_eq_core (env : ClassEnv) (v : Value)
    (t : Option TransporterInfo) (d : Option TypeRef)
    (hv : v ≠ .vNull) (ht : t = none ∨ ∃ a c, t = some (.clsT a c)) :
    compat env v t d = compatCore env v (resolveTarget t d) := by
  rcases ht with rfl | ⟨a, c, rfl⟩ <;> cases v <;> simp_all [compat]

theorem bufferFromRegion_ok (r : Region) (off len : Nat) (p : List String)
    (h : storeOk (.shared r off len) = true) :
    bufferFromRegion r off len p = .ok (.shared r off len) := by
  rw [storeOk, Bool.and_eq_true, Bool.or_eq_true] at h
  obtain ⟨h1, h2⟩ := h
  have h1' : off + len ≤ r.bytes.length := by simpa using h1
  by_cases hlen : len = 0
  · subst hlen
    have hreg : r.bytes.length = 0 := by
      rcases h2 with h2 | h2
      · simp at h2
      · simpa using h2
    have hoff : off = 0 := by omega
    subst hoff
    simp [bufferFromRegion, hreg]
  · simp [bufferFromRegion, hlen, h1']

/-- Round trip of one value at matching descriptors: encoding succeeds,
decoding the result succeeds, and the decoded value is behaviourally
equivalent to the input. -/
def RT (env : ClassEnv) (v : Value) (t : Option TransporterInfo)
    (d : Option TypeRef) : Prop :=
  ∀ p p', ∃ e w, encodeValue env v t d p = .ok e ∧
    decodeValue env e t d p' = .ok w ∧ stripIds w = stripIds v

/-- Elementwise round trip of an array. -/
def RTL (env : ClassEnv) (vs : List Value) (t : Option TransporterInfo)
    (d : Option TypeRef) : Prop :=
  ∀ p p' i i', ∃ es ws, encodeArr env vs t d p i = .ok es ∧
    decodeArr env es t d p' i' = .ok ws ∧ stripIdsL ws = stripIdsL vs

/-- Round trip of a property list of class `c`: encoding the fields (none
of which is a skipped layout field) succeeds, and replaying the decoded
assignments on top of any accumulator free of these keys appends exactly
the behaviourally-equivalent fields in order. -/
def RTF (env : ClassEnv) (c : TypeRef) (kvs : List (String × Value)) : Prop :=
  ∀ skip acc p p',
    nodupKeysF kvs = true →
    (∀ k ∈ kvs.map Prod.fst, skip.contains k = false) →
    (∀ k ∈ kvs.map Prod.fst, acc.any (fun kv => kv.1 = k) = false) →
    ∃ ds ws, encodeFields env c skip kvs p = .ok ds ∧
      decodeAssign env c acc ds p' = .ok (acc ++ ws) ∧
      ws.map Prod.fst = kvs.map Prod.fst ∧
      stripIdsF ws = stripIdsF kvs

/-- `null` round-trips under every descriptor. -/
theorem rtNull (env : ClassEnv) (t : Option TransporterInfo) (d : Option TypeRef) :
    RT env .vNull t d := by
  intro p p'
  exact ⟨.raw .vNull, .vNull, by simp [encodeValue], by simp [decodeValue], rfl⟩

/-- One step of the round-trip induction: a compatible value round-trips,
assuming the list and field round-trips for smaller sizes. -/
theorem rtStep (env : ClassEnv) (n : Nat)
    (ihL : ∀ vs t d, valSizeL vs ≤ n → compatL env vs t d = true → RTL env vs t d)
    (ihF : ∀ c kvs, valSizeF kvs ≤ n → compatF env c kvs = true → RTF env c kvs)
    (v : Value) (t : Option TransporterInfo) (d : Option TypeRef)
    (hsz : valSize v ≤ n + 1) (hc : compat env v t d = true) : RT env v t d := by
  by_cases hv : v = .vNull
  · subst hv; exact rtNull env t d
  have ht : t = none ∨ ∃ a c, t = some (.clsT a c) := by
    cases t with
    | none => exact Or.inl rfl
    | some ti =>
      cases ti with
      | clsT a c => exact Or.inr ⟨a, c, rfl⟩
      | encoderT enc dec => cases v <;> simp_all [compat]
      | noopT => cases v <;> simp_all [compat]
  rw [compat_eq_core env v t d hv ht] at hc
  intro p p'
  rw [show (∃ e w, encodeValue env v t d p = .ok e ∧
        decodeValue env e t d p' = .ok w ∧ stripIds w = stripIds v) =
      (∃ e w, encodeValueCore env v (resolveTarget t d) p = .ok e ∧
        decodeValue env e t d p' = .ok w ∧ stripIds w = stripIds v) from by
    rw [encodeValue_eq_core env v t d p hv ht]]
  rcases hres : resolveTarget t d with ⟨b, oc⟩
  rw [hres] at hc
  cases v with
  | vNull => exact absurd rfl hv
  | vPrim pr =>
    refine ⟨.raw (.vPrim pr), .vPrim pr, by simp [encodeValueCore], ?_, rfl⟩
    rw [decodeValue_eq_core env _ t d p' (by simp) ht, hres]
    simp [decodeValueCore]
  | vBytes oid bytes =>
    have hb : isBuiltinTypeOpt oc = true := by simpa [compatCore] using hc
    refine ⟨.raw (.vBytes oid bytes), .vBytes oid bytes,
      by simp [encodeValueCore, hb], ?_, rfl⟩
    rw [decodeValue_eq_core env _ t d p' (by simp) ht, hres]
    simp [decodeValueCore]
  | vBuiltinObj oid nm =>
    have hb : isBuiltinTypeOpt oc = true := by simpa [compatCore] using hc
    refine ⟨.raw (.vBuiltinObj oid nm), .vBuiltinObj oid nm,
      by simp [encodeValueCore, hb], ?_, rfl⟩
    rw [decodeValue_eq_core env _ t d p' (by simp) ht, hres]
    simp [decodeValueCore]
  | vSab oid r =>
    refine ⟨.sab oid r, .vSab oid r, by simp [encodeValueCore], ?_, rfl⟩
    rw [decodeValue_eq_core env _ t d p' (by simp) ht, hres]
    simp [decodeValueCore]
  | vBuffer oid store =>
    have hs : storeOk store = true := by simpa [compatCore] using hc
    cases store with
    | owned bytes =>
      refine ⟨.buf (.ownedP bytes), .vBuffer 0 (.owned bytes),
        by simp [encodeValueCore, encBufOf], ?_, by simp [stripIds]⟩
      rw [decodeValue_eq_core env _ t d p' (by simp) ht, hres]
      simp [decodeValueCore]
    | shared r off len =>
      refine ⟨.buf (.sharedP r off len), .vBuffer 0 (.shared r off len),
        by simp [encodeValueCore, encBufOf], ?_, by simp [stripIds]⟩
      rw [decodeValue_eq_core env _ t d p' (by simp) ht, hres]
      simp [decodeValueCore, bufferFromRegion_ok r off len p' hs]
  | vArray oid elems =>
    have hszL : valSizeL elems ≤ n := by simp [valSize] at hsz; omega
    cases b with
    | true =>
      cases oc with
      | some c =>
        have hcl : compatL env elems (some (.clsT false c)) (some c) = true := by
          simpa [compatCore] using hc
        obtain ⟨es, ws, hes, hds, hss⟩ := ihL elems _ _ hszL hcl p p' 0 0
        refine ⟨.arr es, .vArray 0 ws, ?_, ?_, ?_⟩
        · simp [encodeValueCore, hes]
        · rw [decodeValue_eq_core env _ t d p' (by simp) ht, hres]
          simp [decodeValueCore, hds]
        · simp [stripIds, hss]
      | none =>
        have hcl : compatL env elems none none = true := by
          simpa [compatCore] using hc
        obtain ⟨es, ws, hes, hds, hss⟩ := ihL elems _ _ hszL hcl p p' 0 0
        refine ⟨.arr es, .vArray 0 ws, ?_, ?_, ?_⟩
        · simp [encodeValueCore, hes]
        · rw [decodeValue_eq_core env _ t d p' (by simp) ht, hres]
          simp [decodeValueCore, hds]
        · simp [stripIds, hss]
    | false =>
      have hcl : compatL env elems none none = true := by
        cases oc <;> simpa [compatCore] using hc
      obtain ⟨es, ws, hes, hds, hss⟩ := ihL elems _ _ hszL hcl p p' 0 0
      refine ⟨.arr es, .vArray 0 ws, ?_, ?_, ?_⟩
      · cases oc <;> simp [encodeValueCore, hes]
      · rw [decodeValue_eq_core env _ t d p' (by simp) ht, hres]
        cases oc <;> simp [decodeValueCore, hds]
      · simp [stripIds, hss]
  | vStruct oid cls buf extra =>
    have hszF : valSizeF extra ≤ n := by simp [valSize] at hsz; omega
    by_cases hb : isBuiltinTypeOpt oc = true
    · refine ⟨.raw (.vStruct oid cls buf extra), .vStruct oid cls buf extra,
        by simp [encodeValueCore, hb], ?_, rfl⟩
      rw [decodeValue_eq_core env _ t d p' (by simp) ht, hres]
      simp [decodeValueCore]
    · cases oc with
      | none => simp [isBuiltinTypeOpt] at hb
      | some c =>
        rw [show compatCore env (.vStruct oid cls buf extra) (b, some c) =
            (decide (c = .userC cls) &&
             (match getTypedStructInfo env (some c) with
              | some f =>
                storeOk buf && nodupKeysF extra &&
                extra.all (fun kv => !(f.contains kv.1)) &&
                compatF env c extra
              | none => false)) from by simp [compatCore, hb]] at hc
        rw [Bool.and_eq_true] at hc
        have hcc : c = .userC cls := by simpa using hc.1
        subst hcc
        have hc2 := hc.2
        cases hsf : getTypedStructInfo env (some (.userC cls)) with
        | none => rw [hsf] at hc2; simp at hc2
        | some f =>
          rw [hsf] at hc2
          rw [Bool.and_eq_true, Bool.and_eq_true, Bool.and_eq_true] at hc2
          obtain ⟨⟨⟨hsto, hnd⟩, hall⟩, hcf⟩ := hc2
          have hskipf : ∀ k ∈ extra.map Prod.fst, f.contains k = false := by
            intro k hk
            obtain ⟨⟨k', x⟩, hmem, hk'⟩ := List.mem_map.mp hk
            subst hk'
            have := (List.all_eq_true.mp hall) _ hmem
            simpa using this
          obtain ⟨ds, ws, hds, hda, hkeys, hstrip⟩ :=
            ihF (.userC cls) extra hszF hcf f [] p p' hnd hskipf (by simp)
          refine ⟨.struct (TypeRef.name (.userC cls)) (some (encBufOf buf)) ds,
            .vStruct 0 (TypeRef.name (.userC cls)) buf ws, ?_, ?_, ?_⟩
          · simp [encodeValueCore, hb, hsf, hds]
          · rw [decodeValue_eq_core env _ t d p' (by simp) ht, hres]
            cases buf with
            | owned bytes =>
              simp [decodeValueCore, hsf, encBufOf, createTypedStructInstance,
                cloneStore, objectKeys, hda]
            | shared r off len =>
              simp [decodeValueCore, hsf, encBufOf,
                bufferFromRegion_ok r off len p' hsto,
                createTypedStructInstance, objectKeys, hda]
          · simp [stripIds, hstrip, TypeRef.name]
  | vObject oid clsOpt fields =>
    have hszF : valSizeF fields ≤ n := by simp [valSize] at hsz; omega
    by_cases hb : isBuiltinTypeOpt oc = true
    · refine ⟨.raw (.vObject oid clsOpt fields), .vObject oid clsOpt fields,
        by simp [encodeValueCore, hb], ?_, rfl⟩
      rw [decodeValue_eq_core env _ t d p' (by simp) ht, hres]
      simp [decodeValueCore]
    · cases oc with
      | none => simp [isBuiltinTypeOpt] at hb
      | some c =>
        cases c with
        | objectC => simp [compatCore, hb] at hc
        | builtinC nm => simp [isBuiltinTypeOpt] at hb
        | sabC => simp [isBuiltinTypeOpt] at hb
        | bufferC => simp [compatCore, hb] at hc
        | userC nn =>
          rw [show compatCore env (.vObject oid clsOpt fields) (b, some (.userC nn)) =
              (match getTypedStructInfo env (some (.userC nn)) with
               | some _ => false
               | none =>
                 decide (clsOpt = some nn) && nodupKeysF fields &&
                 compatF env (.userC nn) fields) from by simp [compatCore, hb]] at hc
          cases hsf : getTypedStructInfo env (some (.userC nn)) with
          | some f => rw [hsf] at hc; simp at hc
          | none =>
            rw [hsf] at hc
            rw [Bool.and_eq_true, Bool.and_eq_true] at hc
            obtain ⟨⟨hco, hnd⟩, hcf⟩ := hc
            have hco' : clsOpt = some nn := by simpa using hco
            subst hco'
            obtain ⟨ds, ws, hds, hda, hkeys, hstrip⟩ :=
              ihF (.userC nn) fields hszF hcf [] [] p p' hnd (by simp) (by simp)
            refine ⟨.custom (TypeRef.name (.userC nn)) ds,
              .vObject 0 (some (TypeRef.name (.userC nn))) ws, ?_, ?_, ?_⟩
            · simp [encodeValueCore, hb, hsf, hds]
            · rw [decodeValue_eq_core env _ t d p' (by simp) ht, hres]
              simp [decodeValueCore, hda]
            · simp [stripIds, hstrip, TypeRef.name]

theorem roundtripBound (env : ClassEnv) (n : Nat) :
    (∀ v t d, valSize v ≤ n → compat env v t d = true → RT env v t d) ∧
    (∀ vs t d, valSizeL vs ≤ n → compatL env vs t d = true → RTL env vs t d) ∧
    (∀ c kvs, valSizeF kvs ≤ n → compatF env c kvs = true → RTF env c kvs) := by
  induction n with
  | zero =>
    refine ⟨?_, ?_, ?_⟩
    · intro v t d hsz _
      exact absurd (le_trans (valSize_pos v) hsz) (by omega)
    · intro vs t d hsz _
      cases vs with
      | nil =>
        intro p p' i i'
        exact ⟨[], [], by simp [encodeArr], by simp [decodeArr], by simp [stripIdsL]⟩
      | cons v rest =>
        rw [valSizeL_cons] at hsz; omega
    · intro c kvs hsz _
      cases kvs with
      | nil =>
        intro skip acc p p' _ _ _
        exact ⟨[], [], by simp [encodeFields], by simp [decodeAssign],
          by simp, by simp [stripIdsF]⟩
      | cons kv rest =>
        obtain ⟨k, v⟩ := kv
        rw [valSizeF_cons] at hsz; omega
  | succ n ih =>
    obtain ⟨ihV, ihL, ihF⟩ := ih
    refine ⟨?_, ?_, ?_⟩
    · exact fun v t d hsz hc => rtStep env n ihL ihF v t d hsz hc
    · intro vs t d hsz hc
      cases vs with
      | nil =>
        intro p p' i i'
        exact ⟨[], [], by simp [encodeArr], by simp [decodeArr], by simp [stripIdsL]⟩
      | cons v rest =>
        rw [valSizeL_cons] at hsz
        rw [show compatL env (v :: rest) t d =
            (compat env v t d && compatL env rest t d) from by simp [compatL],
          Bool.and_eq_true] at hc
        have h1 := rtStep env n ihL ihF v t d (by omega) hc.1
        have h2 := ihL rest t d (by omega) hc.2
        intro p p' i i'
        obtain ⟨e, w, he, hd, hs⟩ :=
          h1 (p ++ ["[" ++ toString i ++ "]"]) (p' ++ ["[" ++ toString i' ++ "]"])
        obtain ⟨es, ws, hes, hds, hss⟩ := h2 p p' (i + 1) (i' + 1)
        refine ⟨e :: es, w :: ws, ?_, ?_, ?_⟩
        · simp [encodeArr, he, hes]
        · simp [decodeArr, hd, hds]
        · simp [stripIdsL, hs, hss]
    · intro c kvs hsz hcf
      cases kvs with
      | nil =>
        intro skip acc p p' _ _ _
        exact ⟨[], [], by simp [encodeFields], by simp [decodeAssign],
          by simp, by simp [stripIdsF]⟩
      | cons kv rest =>
        obtain ⟨k, x⟩ := kv
        rw [valSizeF_cons] at hsz
        rw [show compatF env c ((k, x) :: rest) =
            (compat env x (getPropertyTransporter env c k)
              (getPropertyDesignType env c k) && compatF env c rest) from by
          simp [compatF], Bool.and_eq_true] at hcf
        have hx := rtStep env n ihL ihF x _ _ (by omega) hcf.1
        have hrest := ihF c rest (by omega) hcf.2
        intro skip acc p p' hnd hskip hacc
        rw [show nodupKeysF ((k, x) :: rest) =
            (!(rest.any fun kv => kv.1 = k) && nodupKeysF rest) from by
          simp [nodupKeysF], Bool.and_eq_true, Bool.not_eq_true'] at hnd
        obtain ⟨e, w, he, hd, hs⟩ := hx (p ++ [k]) (p' ++ [k])
        have hskipk : skip.contains k = false := hskip k (by simp)
        have hacck : acc.any (fun kv => kv.1 = k) = false := hacc k (by simp)
        have hrestk : ∀ k' ∈ rest.map Prod.fst, ¬ k' = k := by
          intro k' hk'
          obtain ⟨⟨a, bb⟩, hmem, hk''⟩ := List.mem_map.mp hk'
          subst hk''
          have hany := hnd.1
          rw [List.any_eq_false] at hany
          have := hany _ hmem
          simpa using this
        obtain ⟨ds, ws, hds, hda, hkeys, hstrip⟩ :=
          hrest skip (acc ++ [(k, w)]) p p' hnd.2
            (fun k' hk' => hskip k' (by simp [hk']))
            (fun k' hk' => by
              rw [List.any_append]
              have h1 := hacc k' (by simp [hk'])
              have h2 : [(k, w)].any (fun kv => kv.1 = k') = false := by
                simp
                intro hkk
                exact (hrestk k' hk') hkk.symm
              simp [h1, h2])
        have hskipk' : k ∉ skip := by simpa using hskipk
        refine ⟨(k, e) :: ds, (k, w) :: ws, ?_, ?_, ?_, ?_⟩
        · simp [encodeFields, hskipk', he, hds]
        · rw [show decodeAssign env c acc ((k, e) :: ds) p' =
              (decodeValue env e (getPropertyTransporter env c k)
                (getPropertyDesignType env c k) (p' ++ [k]) >>= fun v =>
                decodeAssign env c (setKey acc k v) ds p') from by
            simp [decodeAssign]]
          rw [hd, exceptBindOk, setKey_absent acc k w hacck, hda,
            List.append_assoc]
          simp
        · simp [hkeys]
        · simp [stripIdsF, hs, hstrip]

/-- A sample reflection environment: `S` is a typed-struct class with layout
field `value` and extra properties `tag` (a string) and `buf` (a
`@TransportType(() => Buffer)` property); `C` is a plain class with an
`S`-typed property `s` and a numeric property `n`. -/
def sampleEnv : ClassEnv :=
  [("S", { structFields := some ["value"],
           props := [("tag", { transporter := none,
                               designType := some (.builtinC "String") }),
                     ("buf", { transporter := some (.clsT false .bufferC),
                               designType := some .bufferC })] }),
   ("C", { structFields := none,
           props := [("s", { transporter := some (.clsT false (.userC "S")),
                             designType := some (.userC "S") }),
                     ("n", { transporter := none,
                             designType := some (.builtinC "Number") })] })]

/-- A nested sample value: a `C` instance holding an `S` struct instance
backed by a shared region, with a string extra field and an owned buffer
extra field. -/
def sampleWrapperValue : Value :=
  .vObject 5 (some "C")
    [("s", .vStruct 7 "S" (.shared ⟨3, [1, 2, 3, 4]⟩ 0 4)
        [("tag", .vPrim (.str "hello")), ("buf", .vBuffer 8 (.owned [9, 9]))]),
     ("n", .vPrim (.num 42))]

/-- The input on which the round-trip claim fails: a `Buffer` view of byte
length 0 into a shared region of 4 bytes. -/
def zeroLenSharedView : Value := .vBuffer 1 (.shared ⟨0, [7, 7, 7, 7]⟩ 0 0)

/-- C1 counterexample: for the shared-region-backed buffer
`zeroLenSharedView` (byte length 0 over a 4-byte region), encoding succeeds
and decoding succeeds, but the decoded buffer is a view of the whole
region (byte length 4) — not behaviourally equivalent to the input, because
`decodeValue` rebuilds the view as
`Buffer.from(data, byteOffset || 0, byteLength || data.byteLength)` and
`0 || 4` is `4`.  So `decodeValue(encodeValue(v, d, t), d, t)` is not
behaviourally equivalent to `v` for every supported shape. -/
theorem roundtrip_fails_on_zero_length_shared_view :
    encodeValue [] zeroLenSharedView none none [] =
      .ok (.buf (.sharedP ⟨0, [7, 7, 7, 7]⟩ 0 0)) ∧
    decodeValue [] (.buf (.sharedP ⟨0, [7, 7, 7, 7]⟩ 0 0)) none none [] =
      .ok (.vBuffer 0 (.shared ⟨0, [7, 7, 7, 7]⟩ 0 4)) ∧
    stripIds (.vBuffer 0 (.shared ⟨0, [7, 7, 7, 7]⟩ 0 4)) ≠
      stripIds zeroLenSharedView := by
  refine ⟨?_, ?_, ?_⟩
  · simp [zeroLenSharedView, encodeValue, encodeValueCore, resolveTarget, encBufOf]
  · simp [decodeValue, decodeValueCore, resolveTarget, bufferFromRegion]
  · simp [zeroLenSharedView, stripIds]

/-- C1 (amended): for every supported value shape whose shared-backed
buffer views have nonzero byte length (or view an empty region) — see
`compat` — `decodeValue` of `encodeValue` succeeds and returns a value
behaviourally equivalent to the input: same class identity, same field
values, same bytes, same shared-region identity/offset/length. -/
theorem decode_encode_roundtrip (env : ClassEnv) (v : Value)
    (t : Option TransporterInfo) (d : Option TypeRef)
    (h : compat env v t d = true) :
    ∀ p p', ∃ e w, encodeValue env v t d p = .ok e ∧
      decodeValue env e t d p' = .ok w ∧ stripIds w = stripIds v :=
  (roundtripBound env (valSize v)).1 v t d le_rfl h

/-- Witness: the nested sample value (plain class instance containing a
shared-backed struct instance with a string extra field and an owned
buffer extra field) is a compatible shape and round-trips. -/
theorem decode_encode_roundtrip_witness :
    compat sampleEnv sampleWrapperValue (some (.clsT false (.userC "C"))) none = true ∧
    ∃ e w, encodeValue sampleEnv sampleWrapperValue
        (some (.clsT false (.userC "C"))) none [] = .ok e ∧
      decodeValue sampleEnv e (some (.clsT false (.userC "C"))) none [] = .ok w ∧
      stripIds w = stripIds sampleWrapperValue := by
  have hcompat : compat sampleEnv sampleWrapperValue
      (some (.clsT false (.userC "C"))) none = true := by
    simp [sampleEnv, sampleWrapperValue, compat, compatCore, compatL, compatF,
      resolveTarget, getTypedStructInfo, getPropertyTransporter,
      getPropertyDesignType, lookupClass, isBuiltinTypeOpt, storeOk,
      nodupKeysF, hasTypeKey]
  exact ⟨hcompat,
    decode_encode_roundtrip sampleEnv sampleWrapperValue
      (some (.clsT false (.userC "C"))) none hcompat [] []⟩

/-- C5: under the (spec-modelled) `TransportNoop`/`Suppressed` descriptor,
encoding ignores the value and yields the absent value, and decoding of
anything yields the absent value — the value never crosses the boundary in
either direction. -/
theorem suppressed_never_crosses (env : ClassEnv) (v : Value) (e : Encoded)
    (d d' : Option TypeRef) (p p' : List String) :
    encodeValue env v (some .noopT) d p = .ok (.raw .vNull) ∧
    decodeValue env e (some .noopT) d' p' = .ok .vNull := by
  constructor
  · cases v <;> simp [encodeValue]
  · cases e with
    | raw v => cases v <;> simp [decodeValue]
    | _ => simp [decodeValue]

/-! ## RPC session bookkeeping (init-worker.ts)

The host side of one session: the mutable state captured by `initWorker`'s
closure (`finalized`, `status`, `nextCallId`, `pending`) and the observable
effects of each handler (settling caller futures, posting messages,
terminating the worker).  Argument/result encoding is the codec above; the
session model records which recorded method name each decode uses. -/

/-- `WorkerStatus` (utility/types.ts). -/
inductive WorkerStatus where
  | Initializing
  | Ready
  | InitError
  | WorkerError
  | Exited
  | Finalized
  deriving DecidableEq, Repr

/-- One entry of the `pending` map: `id ↦ {resolve, reject, method}` (the
two settle functions are represented by the settle effects below). -/
structure PendingEntry where
  id : Nat
  method : String
  deriving DecidableEq, Repr

/-- The session state owned by the `initWorker` closure. -/
structure Session where
  finalized : Bool
  status : WorkerStatus
  nextCallId : Nat
  pending : List PendingEntry
  deriving DecidableEq, Repr

/-- Observable effects of the host handlers, in program order.
`resolvedVia id m` records that the pending future `id` was resolved with
the result decoded by `decodeMethodReturn` for the *recorded* method name
`m`; `rejected` that it was rejected with the given error message. -/
inductive HostEffect where
  | rejected (id : Nat) (method : String) (errMsg : String)
  | resolvedVia (id : Nat) (method : String)
  | postedInvoke (id : Nat) (method : String)
  | postedFinalize
  | terminated
  | callRejected (errMsg : String)
  deriving DecidableEq, Repr

def finalizedErrorMessage : String := "Worker has been finalized"

/-- `callWorkerMethod` (init-worker.ts:326): a call on a finalized session
is rejected synchronously, before any argument encoding and without
touching the channel; otherwise (on the ready path) a fresh monotonically
increasing id is allocated, the call is recorded in `pending` under it,
and `invoke` is posted — `postOk` is whether `worker.postMessage`
succeeds; on failure the entry is deleted again and the call rejected. -/
def callWorkerMethod (s : Session) (name : String) (postOk : Bool) :
    Session × List HostEffect :=
  if s.finalized then (s, [.callRejected finalizedErrorMessage])
  else
    let id := s.nextCallId
    let s' := { s with nextCallId := id + 1, pending := s.pending ++ [⟨id, name⟩] }
    if postOk then (s', [.postedInvoke id name])
    else ({ s' with pending := s'.pending.filter (fun e => e.id != id) },
      [.callRejected "Failed to send message to worker"])

/-- The `'result'` arm of the `worker.on('message')` handler
(init-worker.ts:207): look up the pending entry by the message id (ignore
unknown ids), remove it, and settle that caller — on `ok` by decoding with
the recorded method name's return descriptor, otherwise by rejecting. -/
def handleResultMessage (s : Session) (id : Nat) (ok : Bool) :
    Session × List HostEffect :=
  match s.pending.find? (fun e => e.id = id) with
  | none => (s, [])
  | some entry =>
    ({ s with pending := s.pending.filter (fun e => e.id != id) },
     [if ok then .resolvedVia id entry.method
      else .rejected id entry.method "Worker method execution failed"])

/-- `finalize` (init-worker.ts:367): a second call returns immediately;
the first sets `finalized`, moves the status to `Finalized`, rejects every
pending forward call with the fixed finalized error (before anything is
posted), then posts `finalize` and forces termination. -/
def finalize (s : Session) : Session × List HostEffect :=
  if s.finalized then (s, [])
  else
    ({ s with finalized := true, status := .Finalized, pending := [] },
     (s.pending.map (fun e => HostEffect.rejected e.id e.method finalizedErrorMessage))
       ++ [.postedFinalize, .terminated])

theorem find_pending_of_mem (pend : List PendingEntry) (id : Nat) (m : String)
    (hmem : (⟨id, m⟩ : PendingEntry) ∈ pend)
    (hnd : (pend.map (fun e => e.id)).Nodup) :
    pend.find? (fun e => e.id = id) = some ⟨id, m⟩ := by
  induction pend with
  | nil => cases hmem
  | cons e rest ih =>
    rw [List.map_cons, List.nodup_cons] at hnd
    rcases List.mem_cons.mp hmem with heq | hmem'
    · rw [← heq]
      simp [List.find?]
    · obtain ⟨eid, em⟩ := e
      have hne : eid ≠ id := by
        intro heq
        subst heq
        exact hnd.1 (List.mem_map.mpr ⟨⟨eid, m⟩, hmem', rfl⟩)
      simpa [List.find?, hne] using ih hmem' hnd.2

/-- C2: on a live session, `finalize` immediately moves the state to
`Finalized`, empties the pending table and rejects every pending forward
call with the fixed finalized error — these rejections occur in the same
synchronous step, *before* the `finalize` message is posted and the worker
terminated (no acknowledgment from the context is awaited); and on a
finalized session every new forward call is rejected synchronously with
the same error, with no message posted (effects contain no `postedInvoke`)
— whether or not the channel would accept a message. -/
theorem finalize_immediate_and_blocks_calls (s sf : Session) (name : String)
    (h : s.finalized = false) (hf : sf.finalized = true) :
    (finalize s).1.status = .Finalized ∧
    (finalize s).1.finalized = true ∧
    (finalize s).1.pending = [] ∧
    (finalize s).2 =
      (s.pending.map (fun e =>
        HostEffect.rejected e.id e.method finalizedErrorMessage))
        ++ [.postedFinalize, .terminated] ∧
    (∀ postOk, callWorkerMethod sf name postOk =
      (sf, [.callRejected finalizedErrorMessage])) := by
  refine ⟨?_, ?_, ?_, ?_, ?_⟩ <;> simp [finalize, h, callWorkerMethod, hf]

theorem finalize_immediate_and_blocks_calls_witness :
    ((finalize ⟨false, .Ready, 3, [⟨1, "a"⟩, ⟨2, "b"⟩]⟩).1.status = .Finalized ∧
     (finalize ⟨false, .Ready, 3, [⟨1, "a"⟩, ⟨2, "b"⟩]⟩).1.pending = [] ∧
     (finalize ⟨false, .Ready, 3, [⟨1, "a"⟩, ⟨2, "b"⟩]⟩).2 =
       [.rejected 1 "a" finalizedErrorMessage,
        .rejected 2 "b" finalizedErrorMessage, .postedFinalize, .terminated]) ∧
    callWorkerMethod ⟨true, .Finalized, 3, []⟩ "c" true =
      (⟨true, .Finalized, 3, []⟩, [.callRejected finalizedErrorMessage]) := by
  have h := finalize_immediate_and_blocks_calls
    ⟨false, .Ready, 3, [⟨1, "a"⟩, ⟨2, "b"⟩]⟩ ⟨true, .Finalized, 3, []⟩ "c"
    (by decide) (by decide)
  refine ⟨⟨h.1, h.2.2.1, ?_⟩, h.2.2.2.2 true⟩
  rw [h.2.2.2.1]
  decide

/-- C3: a forward call on a live session records itself in the pending
table under the freshly allocated id `nextCallId` and increments it, so
concurrently issued calls get distinct, monotonically increasing ids (the
new id differs from every recorded one, and the bound is preserved); and
an incoming `result` message settles exactly the pending entry whose id
matches — removing just that entry and resolving it via the *recorded*
method name's return descriptor — independent of issue order, so replies
arriving out of order settle each caller's own future. -/
theorem call_correlation :
    (∀ (s : Session) (name : String), s.finalized = false →
      callWorkerMethod s name true =
        ({ s with nextCallId := s.nextCallId + 1,
                  pending := s.pending ++ [⟨s.nextCallId, name⟩] },
         [.postedInvoke s.nextCallId name]) ∧
      ((∀ e ∈ s.pending, e.id < s.nextCallId) →
        (∀ e ∈ s.pending, e.id ≠ s.nextCallId) ∧
        (∀ e ∈ (callWorkerMethod s name true).1.pending,
          e.id < (callWorkerMethod s name true).1.nextCallId))) ∧
    (∀ (s : Session) (id : Nat) (m : String) (ok : Bool),
      (⟨id, m⟩ : PendingEntry) ∈ s.pending →
      (s.pending.map (fun e => e.id)).Nodup →
      handleResultMessage s id ok =
        ({ s with pending := s.pending.filter (fun e => e.id != id) },
         [if ok then .resolvedVia id m
          else .rejected id m "Worker method execution failed"])) := by
  constructor
  · intro s name h
    refine ⟨by simp [callWorkerMethod, h], ?_⟩
    intro hbound
    refine ⟨fun e he => by have := hbound e he; omega, ?_⟩
    intro e he
    simp [callWorkerMethod, h] at he ⊢
    rcases he with he | he
    · have := hbound e he; omega
    · simp [he]
  · intro s id m ok hmem hnd
    simp [handleResultMessage, find_pending_of_mem s.pending id m hmem hnd]

theorem call_correlation_witness :
    handleResultMessage ⟨false, .Ready, 4, [⟨1, "m1"⟩, ⟨2, "m2"⟩, ⟨3, "m3"⟩]⟩ 2 true =
      (⟨false, .Ready, 4, [⟨1, "m1"⟩, ⟨3, "m3"⟩]⟩, [.resolvedVia 2 "m2"]) ∧
    handleResultMessage ⟨false, .Ready, 4, [⟨1, "m1"⟩, ⟨3, "m3"⟩]⟩ 1 true =
      (⟨false, .Ready, 4, [⟨3, "m3"⟩]⟩, [.resolvedVia 1 "m1"]) ∧
    handleResultMessage ⟨false, .Ready, 4, [⟨3, "m3"⟩]⟩ 3 true =
      (⟨false, .Ready, 4, []⟩, [.resolvedVia 3 "m3"]) := by
  have h2 := call_correlation.2 ⟨false, .Ready, 4, [⟨1, "m1"⟩, ⟨2, "m2"⟩, ⟨3, "m3"⟩]⟩
    2 "m2" true (by decide) (by decide)
  have h1 := call_correlation.2 ⟨false, .Ready, 4, [⟨1, "m1"⟩, ⟨3, "m3"⟩]⟩
    1 "m1" true (by decide) (by decide)
  have h3 := call_correlation.2 ⟨false, .Ready, 4, [⟨3, "m3"⟩]⟩
    3 "m3" true (by decide) (by decide)
  refine ⟨?_, ?_, ?_⟩
  · rw [h2]; decide
  · rw [h1]; decide
  · rw [h3]; decide

/-- C10: once a session is finalized, `finalize` is idempotent: a second
call returns immediately with no effects at all — it rejects no call,
posts no second `finalize` message, terminates nothing, changes no state —
and the status stays `Finalized`. -/
theorem finalize_idempotent (s0 : Session) (h : s0.finalized = false) :
    finalize ((finalize s0).1) = ((finalize s0).1, []) ∧
    ((finalize s0).1).status = .Finalized ∧
    (∀ s : Session, s.finalized = true → finalize s = (s, [])) := by
  refine ⟨?_, ?_, ?_⟩
  · simp [finalize, h]
  · simp [finalize, h]
  · intro s hs
    simp [finalize, hs]

theorem finalize_idempotent_witness :
    finalize ((finalize ⟨false, .Ready, 2, [⟨1, "m"⟩]⟩).1) =
      ((finalize ⟨false, .Ready, 2, [⟨1, "m"⟩]⟩).1, []) ∧
    ((finalize ⟨false, .Ready, 2, [⟨1, "m"⟩]⟩).1).status = .Finalized := by
  have h := finalize_idempotent ⟨false, .Ready, 2, [⟨1, "m"⟩]⟩ (by decide)
  exact ⟨h.1, h.2.1⟩

/-! ## Shared-memory manager: structural scan and size computation
(the `shared-decorator` module with `hasSharedMemorySegments` /
`calculateSharedMemorySize`) -/

/-- The keys of a prototype that carry `TransportType`/`TransportEncoder`
metadata (`transportReflector.getArray('transporterKeys', proto)`). -/
def transporterKeys (info : ClassInfo) : List String :=
  (info.props.filter (fun p => p.2.transporter.isSome)).map Prod.fst

mutual

/-- `hasSharedMemorySegments(cls, visited)`: true for typed-struct classes,
`Buffer`, `SharedArrayBuffer`; false for builtins; for user classes, scans
the decorated properties' `design:type` and transporter target classes
recursively.  A class already in `visited` yields `false` (the source's
"prevent infinite recursion" guard).  The source mutates one shared
`WeakSet`; here `visited` is threaded through and returned.  `fuel` exists
only for the termination checker: the source terminates because `visited`
only grows over the finitely many type objects, so any fuel exceeding the
number of reachable types gives the source's answer (`none` = fuel ran
out, which the theorems below never hit). -/
def hasSharedMemorySegments (env : ClassEnv) :
    Nat → TypeRef → List TypeRef → Option (Bool × List TypeRef)
  | 0, _, _ => none
  | fuel + 1, cls, visited =>
    if visited.contains cls then some (false, visited)
    else
      let vis := cls :: visited
      if (getTypedStructInfo env (some cls)).isSome then some (true, vis)
      else if cls = .bufferC ∨ cls = .sabC then some (true, vis)
      else if isBuiltinTypeOpt (some cls) then some (false, vis)
      else
        match cls with
        | .userC n =>
          match lookupClass env n with
          | none => some (false, vis)
          | some info => hasSharedKeys env fuel cls (transporterKeys info) vis
        | _ => some (false, vis)
termination_by fuel _ _ => (fuel, 0)

/-- The `for (const key of allKeys)` loop of `hasSharedMemorySegments`:
per key, first the `design:type` checks (Buffer/SharedArrayBuffer, then a
recursive scan of non-builtin types), then the property transporter's
target class (Buffer/SharedArrayBuffer, then a recursive scan). -/
def hasSharedKeys (env : ClassEnv) (fuel : Nat) (cls : TypeRef) :
    List String → List TypeRef → Option (Bool × List TypeRef)
  | [], visited => some (false, visited)
  | k :: rest, visited =>
    let dt := getPropertyDesignType env cls k
    if dt = some .bufferC ∨ dt = some .sabC then some (true, visited)
    else
      let step2 : Option (Bool × List TypeRef) :=
        match dt with
        | some dtc =>
          if isBuiltinTypeOpt (some dtc) then some (false, visited)
          else hasSharedMemorySegments env fuel dtc visited
        | none => some (false, visited)
      match step2 with
      | none => none
      | some (true, vis1) => some (true, vis1)
      | some (false, vis1) =>
        match getPropertyTransporter env cls k with
        | some (.clsT _ target) =>
          if target = .bufferC ∨ target = .sabC then some (true, vis1)
          else
            match hasSharedMemorySegments env fuel target vis1 with
            | none => none
            | some (true, vis2) => some (true, vis2)
            | some (false, vis2) => hasSharedKeys env fuel cls rest vis2
        | _ => hasSharedKeys env fuel cls rest vis1
termination_by keys _ => (fuel, keys.length + 1)

end

/-- The type cycle from the repository's own shared-decorator test:
`CircularA` has a `@TransportType(() => CircularB)` property `b` whose
design type is `CircularB`, and `CircularB` has a
`@TransportType(() => CircularA)` property `a` whose design type is the
generic `Object` (the TS field is typed `any`). -/
def circularTypeEnv : ClassEnv :=
  [("CircularA",
    { structFields := none,
      props := [("b", { transporter := some (.clsT false (.userC "CircularB")),
                        designType := some (.userC "CircularB") })] }),
   ("CircularB",
    { structFields := none,
      props := [("a", { transporter := some (.clsT false (.userC "CircularA")),
                        designType := some .objectC })] })]

/-- C6: on a cyclic type graph the structural scan does not fail with a
hard circular-type-reference error — it terminates normally and answers
`false`, because the `visited` guard returns `false` for a revisited
class and the function body contains no throw at all (the model's result
type has no error outcome other than running out of fuel, which larger
fuel rules out).  The repository's own test expects
`hasSharedMemorySegments(CircularA)` to throw 'Circular reference
detected'. -/
theorem hasSharedMemorySegments_cycle_returns_false :
    (hasSharedMemorySegments circularTypeEnv 10 (.userC "CircularA") []).map
        Prod.fst = some false ∧
    (hasSharedMemorySegments circularTypeEnv 20 (.userC "CircularA") []).map
        Prod.fst = some false := by
  constructor <;>
    simp [hasSharedMemorySegments, hasSharedKeys, circularTypeEnv,
      getPropertyDesignType, getPropertyTransporter, getTypedStructInfo,
      lookupClass, transporterKeys, isBuiltinTypeOpt, List.find?]

/-- Whether a property participates in the size computation: the source's
`propTransporter?.type === 'class' || (propDesignType &&
!isBuiltinType(propDesignType))` filter. -/
def sizeQualifies (env : ClassEnv) (c : TypeRef) (k : String) : Bool :=
  (match getPropertyTransporter env c k with
   | some (.clsT _ _) => true
   | _ => false) ||
  (match getPropertyDesignType env c k with
   | some dt => !(isBuiltinTypeOpt (some dt))
   | none => false)

mutual

/-- `calculateSharedMemorySize(obj, visited)`: bytes that must be newly
allocated to make `obj` fully shared.  Already-shared buffers, shared
regions, builtins, primitives and revisited objects contribute 0; owned
buffers their length; a struct instance with a shared backing returns 0
immediately (its extra fields are not visited); a struct with owned
backing contributes its buffer length plus its metadata-qualified extra
fields; user classes sum their metadata-qualified fields; plain objects
sum all fields.  `none` models the source throwing (`raw()` applied to an
instance of a struct-registered class that has no struct storage). -/
def calculateSharedMemorySize (env : ClassEnv) (v : Value) (visited : List Nat) :
    Option (Nat × List Nat) :=
  match v with
  | .vNull => some (0, visited)
  | .vPrim _ => some (0, visited)
  | .vBuffer oid store =>
    if visited.contains oid then some (0, visited)
    else
      let vis := oid :: visited
      match store with
      | .shared _ _ _ => some (0, vis)
      | .owned bytes => some (bytes.length, vis)
  | .vSab oid _ =>
    if visited.contains oid then some (0, visited) else some (0, oid :: visited)
  | .vArray oid elems =>
    if visited.contains oid then some (0, visited)
    else calcList env elems (oid :: visited)
  | .vBytes oid _ =>
    if visited.contains oid then some (0, visited) else some (0, oid :: visited)
  | .vBuiltinObj oid _ =>
    if visited.contains oid then some (0, visited) else some (0, oid :: visited)
  | .vStruct oid cls buf extra =>
    if visited.contains oid then some (0, visited)
    else
      let vis := oid :: visited
      match getTypedStructInfo env (some (.userC cls)) with
      | some f =>
        match buf with
        | .shared _ _ _ => some (0, vis)
        | .owned bytes =>
          (calcFields env (.userC cls) f extra vis).map
            (fun r => (bytes.length + r.1, r.2))
      | none =>
        -- a struct instance whose class is not registered as typed-struct:
        -- `getTypedStructInfo(ctor)` is null, so the source takes the
        -- user-class branch over the instance's own keys
        calcFields env (.userC cls) [] extra vis
  | .vObject oid clsOpt fields =>
    if visited.contains oid then some (0, visited)
    else
      let vis := oid :: visited
      match clsOpt with
      | some n =>
        match getTypedStructInfo env (some (.userC n)) with
        | some _ => none
          -- the source calls `structInfo.structCls.raw(obj)` here, which
          -- throws for an instance without struct storage
        | none => calcFields env (.userC n) [] fields vis
      | none => calcPlainFields env fields vis

def calcList (env : ClassEnv) (elems : List Value) (visited : List Nat) :
    Option (Nat × List Nat) :=
  match elems with
  | [] => some (0, visited)
  | v :: rest => do
    let r1 ← calculateSharedMemorySize env v visited
    let r2 ← calcList env rest r1.2
    some (r1.1 + r2.1, r2.2)

/-- The metadata-filtered field loop (user classes and struct extras):
layout fields in `skip` are skipped, and a field contributes only when
`sizeQualifies`. -/
def calcFields (env : ClassEnv) (c : TypeRef) (skip : List String)
    (kvs : List (String × Value)) (visited : List Nat) :
    Option (Nat × List Nat) :=
  match kvs with
  | [] => some (0, visited)
  | (k, x) :: rest =>
    if skip.contains k then calcFields env c skip rest visited
    else if sizeQualifies env c k then do
      let r1 ← calculateSharedMemorySize env x visited
      let r2 ← calcFields env c skip rest r1.2
      some (r1.1 + r2.1, r2.2)
    else calcFields env c skip rest visited

/-- The plain-object loop: every field contributes. -/
def calcPlainFields (env : ClassEnv) (kvs : List (String × Value))
    (visited : List Nat) : Option (Nat × List Nat) :=
  match kvs with
  | [] => some (0, visited)
  | (_, x) :: rest => do
    let r1 ← calculateSharedMemorySize env x visited
    let r2 ← calcPlainFields env rest r1.2
    some (r1.1 + r2.1, r2.2)

end

mutual

/-- "All of the value's buffer/struct backing stores are already backed by
shared memory": no owned buffer and no owned struct backing anywhere; also
requires the value to be well-formed (a `vObject` must not pretend to be
of a typed-struct class — the source would throw on it). -/
def fullyShared (env : ClassEnv) : Value → Bool
  | .vNull => true
  | .vPrim _ => true
  | .vBytes _ _ => true
  | .vBuiltinObj _ _ => true
  | .vBuffer _ (.owned _) => false
  | .vBuffer _ (.shared _ _ _) => true
  | .vSab _ _ => true
  | .vArray _ es => fullySharedL env es
  | .vStruct _ _ (.shared _ _ _) extra => fullySharedF env extra
  | .vStruct _ _ (.owned _) _ => false
  | .vObject _ clsOpt fields =>
    (match clsOpt with
     | some n => (getTypedStructInfo env (some (.userC n))).isNone
     | none => true) && fullySharedF env fields

def fullySharedL (env : ClassEnv) : List Value → Bool
  | [] => true
  | v :: rest => fullyShared env v && fullySharedL env rest

def fullySharedF (env : ClassEnv) : List (String × Value) → Bool
  | [] => true
  | (_, v) :: rest => fullyShared env v && fullySharedF env rest

end

mutual

/-- "Contains no shared-memory segment at all": no buffer, no shared
region, no struct instance anywhere (and well-formed as above). -/
def segFree (env : ClassEnv) : Value → Bool
  | .vNull => true
  | .vPrim _ => true
  | .vBytes _ _ => true
  | .vBuiltinObj _ _ => true
  | .vBuffer _ _ => false
  | .vSab _ _ => false
  | .vArray _ es => segFreeL env es
  | .vStruct _ _ _ _ => false
  | .vObject _ clsOpt fields =>
    (match clsOpt with
     | some n => (getTypedStructInfo env (some (.userC n))).isNone
     | none => true) && segFreeF env fields

def segFreeL (env : ClassEnv) : List Value → Bool
  | [] => true
  | v :: rest => segFree env v && segFreeL env rest

def segFreeF (env : ClassEnv) : List (String × Value) → Bool
  | [] => true
  | (_, v) :: rest => segFree env v && segFreeF env rest

end

mutual

/-- "The value's only shared-memory segment is a single unshared owned
buffer of length N" (then `soleOwned` computes `some N`): either the value
is that owned buffer (or a struct instance with owned backing of length N
whose extra fields are segment-free and not shadowed by layout names), or
exactly one array element / object field holds the sole segment in a
position the size computation counts, with everything else segment-free. -/
def soleOwned (env : ClassEnv) : Value → Option Nat
  | .vBuffer _ (.owned bytes) => some bytes.length
  | .vStruct _ cls (.owned bytes) extra =>
    match getTypedStructInfo env (some (.userC cls)) with
    | some f =>
      if segFreeF env extra && extra.all (fun kv => !(f.contains kv.1))
      then some bytes.length else none
    | none => none
  | .vArray _ es => soleOwnedL env es
  | .vObject _ clsOpt fields =>
    (match clsOpt with
     | none => soleOwnedPlainF env fields
     | some n =>
       if (getTypedStructInfo env (some (.userC n))).isNone
       then soleOwnedUserF env (.userC n) fields else none)
  | _ => none

def soleOwnedL (env : ClassEnv) : List Value → Option Nat
  | [] => none
  | v :: rest =>
    match soleOwned env v with
    | some N => if segFreeL env rest then some N else none
    | none => if segFree env v then soleOwnedL env rest else none

def soleOwnedPlainF (env : ClassEnv) : List (String × Value) → Option Nat
  | [] => none
  | (_, x) :: rest =>
    match soleOwned env x with
    | some N => if segFreeF env rest then some N else none
    | none => if segFree env x then soleOwnedPlainF env rest else none

def soleOwnedUserF (env : ClassEnv) (c : TypeRef) :
    List (String × Value) → Option Nat
  | [] => none
  | (k, x) :: rest =>
    match soleOwned env x with
    | some N =>
      if sizeQualifies env c k && segFreeF env rest then some N else none
    | none => if segFree env x then soleOwnedUserF env c rest else none

end

mutual

/-- All object identities occurring in a value (the objects the source's
`visited` WeakSet can hold). -/
def collectOids : Value → List Nat
  | .vNull => []
  | .vPrim _ => []
  | .vBytes oid _ => [oid]
  | .vBuiltinObj oid _ => [oid]
  | .vBuffer oid _ => [oid]
  | .vSab oid _ => [oid]
  | .vArray oid es => oid :: collectOidsL es
  | .vStruct oid _ _ extra => oid :: collectOidsF extra
  | .vObject oid _ fields => oid :: collectOidsF fields

def collectOidsL : List Value → List Nat
  | [] => []
  | v :: rest => collectOids v ++ collectOidsL rest

def collectOidsF : List (String × Value) → List Nat
  | [] => []
  | (_, v) :: rest => collectOids v ++ collectOidsF rest

end

theorem fullySharedCalcBound (env : ClassEnv) (n : Nat) :
    (∀ v vis, valSize v ≤ n → fullyShared env v = true →
      ∃ vis', calculateSharedMemorySize env v vis = some (0, vis')) ∧
    (∀ es vis, valSizeL es ≤ n → fullySharedL env es = true →
      ∃ vis', calcList env es vis = some (0, vis')) ∧
    (∀ c skip kvs vis, valSizeF kvs ≤ n → fullySharedF env kvs = true →
      ∃ vis', calcFields env c skip kvs vis = some (0, vis')) ∧
    (∀ kvs vis, valSizeF kvs ≤ n → fullySharedF env kvs = true →
      ∃ vis', calcPlainFields env kvs vis = some (0, vis')) := by
  induction n with
  | zero =>
    refine ⟨?_, ?_, ?_, ?_⟩
    · intro v vis hsz _
      exact absurd (le_trans (valSize_pos v) hsz) (by omega)
    · intro es vis hsz _
      cases es with
      | nil => exact ⟨vis, by simp [calcList]⟩
      | cons v rest => rw [valSizeL_cons] at hsz; omega
    · intro c skip kvs vis hsz _
      cases kvs with
      | nil => exact ⟨vis, by simp [calcFields]⟩
      | cons kv rest => obtain ⟨k, x⟩ := kv; rw [valSizeF_cons] at hsz; omega
    · intro kvs vis hsz _
      cases kvs with
      | nil => exact ⟨vis, by simp [calcPlainFields]⟩
      | cons kv rest => obtain ⟨k, x⟩ := kv; rw [valSizeF_cons] at hsz; omega
  | succ n ih =>
    obtain ⟨ihV, ihL, ihF, ihP⟩ := ih
    refine ⟨?_, ?_, ?_, ?_⟩
    · intro v vis hsz hfs
      cases v with
      | vNull => exact ⟨vis, by simp [calculateSharedMemorySize]⟩
      | vPrim p => exact ⟨vis, by simp [calculateSharedMemorySize]⟩
      | vBytes oid bytes =>
        by_cases hv : oid ∈ vis
        · exact ⟨vis, by simp [calculateSharedMemorySize, hv]⟩
        · exact ⟨oid :: vis, by simp [calculateSharedMemorySize, hv]⟩
      | vBuiltinObj oid nm =>
        by_cases hv : oid ∈ vis
        · exact ⟨vis, by simp [calculateSharedMemorySize, hv]⟩
        · exact ⟨oid :: vis, by simp [calculateSharedMemorySize, hv]⟩
      | vSab oid r =>
        by_cases hv : oid ∈ vis
        · exact ⟨vis, by simp [calculateSharedMemorySize, hv]⟩
        · exact ⟨oid :: vis, by simp [calculateSharedMemorySize, hv]⟩
      | vBuffer oid store =>
        cases store with
        | owned bytes => simp [fullyShared] at hfs
        | shared r off len =>
          by_cases hv : oid ∈ vis
          · exact ⟨vis, by simp [calculateSharedMemorySize, hv]⟩
          · exact ⟨oid :: vis, by simp [calculateSharedMemorySize, hv]⟩
      | vArray oid es =>
        have hfs' : fullySharedL env es = true := by simpa [fullyShared] using hfs
        have hsz' : valSizeL es ≤ n := by simp [valSize] at hsz; omega
        by_cases hv : oid ∈ vis
        · exact ⟨vis, by simp [calculateSharedMemorySize, hv]⟩
        · obtain ⟨vis', h⟩ := ihL es (oid :: vis) hsz' hfs'
          exact ⟨vis', by simp [calculateSharedMemorySize, hv, h]⟩
      | vStruct oid cls buf extra =>
        have hsz' : valSizeF extra ≤ n := by simp [valSize] at hsz; omega
        cases buf with
        | owned bytes => simp [fullyShared] at hfs
        | shared r off len =>
          have hfs' : fullySharedF env extra = true := by
            simpa [fullyShared] using hfs
          by_cases hv : oid ∈ vis
          · exact ⟨vis, by simp [calculateSharedMemorySize, hv]⟩
          · cases hsf : getTypedStructInfo env (some (.userC cls)) with
            | some f =>
              exact ⟨oid :: vis, by simp [calculateSharedMemorySize, hv, hsf]⟩
            | none =>
              obtain ⟨vis', h⟩ := ihF (.userC cls) [] extra (oid :: vis) hsz' hfs'
              exact ⟨vis', by simp [calculateSharedMemorySize, hv, hsf, h]⟩
      | vObject oid clsOpt fields =>
        have hsz' : valSizeF fields ≤ n := by simp [valSize] at hsz; omega
        cases clsOpt with
        | none =>
          have hfs' : fullySharedF env fields = true := by
            simpa [fullyShared] using hfs
          by_cases hv : oid ∈ vis
          · exact ⟨vis, by simp [calculateSharedMemorySize, hv]⟩
          · obtain ⟨vis', h⟩ := ihP fields (oid :: vis) hsz' hfs'
            exact ⟨vis', by simp [calculateSharedMemorySize, hv, h]⟩
        | some nn =>
          rw [show fullyShared env (.vObject oid (some nn) fields) =
              ((getTypedStructInfo env (some (.userC nn))).isNone &&
                fullySharedF env fields) from by simp [fullyShared],
            Bool.and_eq_true] at hfs
          cases hsf : getTypedStructInfo env (some (.userC nn)) with
          | some f => rw [hsf] at hfs; simp at hfs
          | none =>
            by_cases hv : oid ∈ vis
            · exact ⟨vis, by simp [calculateSharedMemorySize, hv]⟩
            · obtain ⟨vis', h⟩ := ihF (.userC nn) [] fields (oid :: vis) hsz' hfs.2
              exact ⟨vis', by simp [calculateSharedMemorySize, hv, hsf, h]⟩
    · intro es vis hsz hfs
      cases es with
      | nil => exact ⟨vis, by simp [calcList]⟩
      | cons v rest =>
        rw [valSizeL_cons] at hsz
        rw [show fullySharedL env (v :: rest) =
            (fullyShared env v && fullySharedL env rest) from by
          simp [fullySharedL], Bool.and_eq_true] at hfs
        obtain ⟨vis1, h1⟩ := ihV v vis (by omega) hfs.1
        obtain ⟨vis2, h2⟩ := ihL rest vis1 (by omega) hfs.2
        exact ⟨vis2, by simp [calcList, h1, h2]⟩
    · intro c skip kvs vis hsz hfs
      cases kvs with
      | nil => exact ⟨vis, by simp [calcFields]⟩
      | cons kv rest =>
        obtain ⟨k, x⟩ := kv
        rw [valSizeF_cons] at hsz
        rw [show fullySharedF env ((k, x) :: rest) =
            (fullyShared env x && fullySharedF env rest) from by
          simp [fullySharedF], Bool.and_eq_true] at hfs
        by_cases hskip : k ∈ skip
        · obtain ⟨vis', h⟩ := ihF c skip rest vis (by omega) hfs.2
          exact ⟨vis', by simp [calcFields, hskip, h]⟩
        · by_cases hq : sizeQualifies env c k
          · obtain ⟨vis1, h1⟩ := ihV x vis (by omega) hfs.1
            obtain ⟨vis2, h2⟩ := ihF c skip rest vis1 (by omega) hfs.2
            exact ⟨vis2, by simp [calcFields, hskip, hq, h1, h2]⟩
          · obtain ⟨vis', h⟩ := ihF c skip rest vis (by omega) hfs.2
            exact ⟨vis', by simp [calcFields, hskip, hq, h]⟩
    · intro kvs vis hsz hfs
      cases kvs with
      | nil => exact ⟨vis, by simp [calcPlainFields]⟩
      | cons kv rest =>
        obtain ⟨k, x⟩ := kv
        rw [valSizeF_cons] at hsz
        rw [show fullySharedF env ((k, x) :: rest) =
            (fullyShared env x && fullySharedF env rest) from by
          simp [fullySharedF], Bool.and_eq_true] at hfs
        obtain ⟨vis1, h1⟩ := ihV x vis (by omega) hfs.1
        obtain ⟨vis2, h2⟩ := ihP rest vis1 (by omega) hfs.2
        exact ⟨vis2, by simp [calcPlainFields, h1, h2]⟩

theorem segFreeCalcBound (env : ClassEnv) (n : Nat) :
    (∀ v vis, valSize v ≤ n → segFree env v = true →
      ∃ vis', calculateSharedMemorySize env v vis = some (0, vis') ∧
        ∀ o ∈ vis', o ∈ vis ∨ o ∈ collectOids v) ∧
    (∀ es vis, valSizeL es ≤ n → segFreeL env es = true →
      ∃ vis', calcList env es vis = some (0, vis') ∧
        ∀ o ∈ vis', o ∈ vis ∨ o ∈ collectOidsL es) ∧
    (∀ c skip kvs vis, valSizeF kvs ≤ n → segFreeF env kvs = true →
      ∃ vis', calcFields env c skip kvs vis = some (0, vis') ∧
        ∀ o ∈ vis', o ∈ vis ∨ o ∈ collectOidsF kvs) ∧
    (∀ kvs vis, valSizeF kvs ≤ n → segFreeF env kvs = true →
      ∃ vis', calcPlainFields env kvs vis = some (0, vis') ∧
        ∀ o ∈ vis', o ∈ vis ∨ o ∈ collectOidsF kvs) := by
  induction n with
  | zero =>
    refine ⟨?_, ?_, ?_, ?_⟩
    · intro v vis hsz _
      exact absurd (le_trans (valSize_pos v) hsz) (by omega)
    · intro es vis hsz _
      cases es with
      | nil => exact ⟨vis, by simp [calcList], fun o ho => Or.inl ho⟩
      | cons v rest => rw [valSizeL_cons] at hsz; omega
    · intro c skip kvs vis hsz _
      cases kvs with
      | nil => exact ⟨vis, by simp [calcFields], fun o ho => Or.inl ho⟩
      | cons kv rest => obtain ⟨k, x⟩ := kv; rw [valSizeF_cons] at hsz; omega
    · intro kvs vis hsz _
      cases kvs with
      | nil => exact ⟨vis, by simp [calcPlainFields], fun o ho => Or.inl ho⟩
      | cons kv rest => obtain ⟨k, x⟩ := kv; rw [valSizeF_cons] at hsz; omega
  | succ n ih =>
    obtain ⟨ihV, ihL, ihF, ihP⟩ := ih
    refine ⟨?_, ?_, ?_, ?_⟩
    · intro v vis hsz hsf
      cases v with
      | vNull =>
        exact ⟨vis, by simp [calculateSharedMemorySize], fun o ho => Or.inl ho⟩
      | vPrim p =>
        exact ⟨vis, by simp [calculateSharedMemorySize], fun o ho => Or.inl ho⟩
      | vBytes oid bytes =>
        by_cases hv : oid ∈ vis
        · exact ⟨vis, by simp [calculateSharedMemorySize, hv], fun o ho => Or.inl ho⟩
        · refine ⟨oid :: vis, by simp [calculateSharedMemorySize, hv], ?_⟩
          intro o ho
          rcases List.mem_cons.mp ho with rfl | ho
          · exact Or.inr (by simp [collectOids])
          · exact Or.inl ho
      | vBuiltinObj oid nm =>
        by_cases hv : oid ∈ vis
        · exact ⟨vis, by simp [calculateSharedMemorySize, hv], fun o ho => Or.inl ho⟩
        · refine ⟨oid :: vis, by simp [calculateSharedMemorySize, hv], ?_⟩
          intro o ho
          rcases List.mem_cons.mp ho with rfl | ho
          · exact Or.inr (by simp [collectOids])
          · exact Or.inl ho
      | vBuffer oid store => simp [segFree] at hsf
      | vSab oid r => simp [segFree] at hsf
      | vStruct oid cls buf extra => simp [segFree] at hsf
      | vArray oid es =>
        have hsf' : segFreeL env es = true := by simpa [segFree] using hsf
        have hsz' : valSizeL es ≤ n := by simp [valSize] at hsz; omega
        by_cases hv : oid ∈ vis
        · exact ⟨vis, by simp [calculateSharedMemorySize, hv], fun o ho => Or.inl ho⟩
        · obtain ⟨vis', h, hsub⟩ := ihL es (oid :: vis) hsz' hsf'
          refine ⟨vis', by simp [calculateSharedMemorySize, hv, h], ?_⟩
          intro o ho
          rcases hsub o ho with ho' | ho'
          · rcases List.mem_cons.mp ho' with rfl | ho''
            · exact Or.inr (by simp [collectOids])
            · exact Or.inl ho''
          · exact Or.inr (by simp [collectOids, ho'])
      | vObject oid clsOpt fields =>
        have hsz' : valSizeF fields ≤ n := by simp [valSize] at hsz; omega
        cases clsOpt with
        | none =>
          have hsf' : segFreeF env fields = true := by simpa [segFree] using hsf
          by_cases hv : oid ∈ vis
          · exact ⟨vis, by simp [calculateSharedMemorySize, hv], fun o ho => Or.inl ho⟩
          · obtain ⟨vis', h, hsub⟩ := ihP fields (oid :: vis) hsz' hsf'
            refine ⟨vis', by simp [calculateSharedMemorySize, hv, h], ?_⟩
            intro o ho
            rcases hsub o ho with ho' | ho'
            · rcases List.mem_cons.mp ho' with rfl | ho''
              · exact Or.inr (by simp [collectOids])
              · exact Or.inl ho''
            · exact Or.inr (by simp [collectOids, ho'])
        | some nn =>
          rw [show segFree env (.vObject oid (some nn) fields) =
              ((getTypedStructInfo env (some (.userC nn))).isNone &&
                segFreeF env fields) from by simp [segFree],
            Bool.and_eq_true] at hsf
          cases hstr : getTypedStructInfo env (some (.userC nn)) with
          | some f => rw [hstr] at hsf; simp at hsf
          | none =>
            by_cases hv : oid ∈ vis
            · exact ⟨vis, by simp [calculateSharedMemorySize, hv],
                fun o ho => Or.inl ho⟩
            · obtain ⟨vis', h, hsub⟩ :=
                ihF (.userC nn) [] fields (oid :: vis) hsz' hsf.2
              refine ⟨vis',
                by simp [calculateSharedMemorySize, hv, hstr, h], ?_⟩
              intro o ho
              rcases hsub o ho with ho' | ho'
              · rcases List.mem_cons.mp ho' with rfl | ho''
                · exact Or.inr (by simp [collectOids])
                · exact Or.inl ho''
              · exact Or.inr (by simp [collectOids, ho'])
    · intro es vis hsz hsf
      cases es with
      | nil => exact ⟨vis, by simp [calcList], fun o ho => Or.inl ho⟩
      | cons v rest =>
        rw [valSizeL_cons] at hsz
        rw [show segFreeL env (v :: rest) =
            (segFree env v && segFreeL env rest) from by simp [segFreeL],
          Bool.and_eq_true] at hsf
        obtain ⟨vis1, h1, hsub1⟩ := ihV v vis (by omega) hsf.1
        obtain ⟨vis2, h2, hsub2⟩ := ihL rest vis1 (by omega) hsf.2
        refine ⟨vis2, by simp [calcList, h1, h2], ?_⟩
        intro o ho
        rcases hsub2 o ho with ho' | ho'
        · rcases hsub1 o ho' with ho'' | ho''
          · exact Or.inl ho''
          · exact Or.inr (by simp [collectOidsL, ho''])
        · exact Or.inr (by simp [collectOidsL, ho'])
    · intro c skip kvs vis hsz hsf
      cases kvs with
      | nil => exact ⟨vis, by simp [calcFields], fun o ho => Or.inl ho⟩
      | cons kv rest =>
        obtain ⟨k, x⟩ := kv
        rw [valSizeF_cons] at hsz
        rw [show segFreeF env ((k, x) :: rest) =
            (segFree env x && segFreeF env rest) from by simp [segFreeF],
          Bool.and_eq_true] at hsf
        by_cases hskip : k ∈ skip
        · obtain ⟨vis', h, hsub⟩ := ihF c skip rest vis (by omega) hsf.2
          refine ⟨vis', by simp [calcFields, hskip, h], ?_⟩
          intro o ho
          rcases hsub o ho with ho' | ho'
          · exact Or.inl ho'
          · exact Or.inr (by simp [collectOidsF, ho'])
        · by_cases hq : sizeQualifies env c k
          · obtain ⟨vis1, h1, hsub1⟩ := ihV x vis (by omega) hsf.1
            obtain ⟨vis2, h2, hsub2⟩ := ihF c skip rest vis1 (by omega) hsf.2
            refine ⟨vis2, by simp [calcFields, hskip, hq, h1, h2], ?_⟩
            intro o ho
            rcases hsub2 o ho with ho' | ho'
            · rcases hsub1 o ho' with ho'' | ho''
              · exact Or.inl ho''
              · exact Or.inr (by simp [collectOidsF, ho''])
            · exact Or.inr (by simp [collectOidsF, ho'])
          · obtain ⟨vis', h, hsub⟩ := ihF c skip rest vis (by omega) hsf.2
            refine ⟨vis', by simp [calcFields, hskip, hq, h], ?_⟩
            intro o ho
            rcases hsub o ho with ho' | ho'
            · exact Or.inl ho'
            · exact Or.inr (by simp [collectOidsF, ho'])
    · intro kvs vis hsz hsf
      cases kvs with
      | nil => exact ⟨vis, by simp [calcPlainFields], fun o ho => Or.inl ho⟩
      | cons kv rest =>
        obtain ⟨k, x⟩ := kv
        rw [valSizeF_cons] at hsz
        rw [show segFreeF env ((k, x) :: rest) =
            (segFree env x && segFreeF env rest) from by simp [segFreeF],
          Bool.and_eq_true] at hsf
        obtain ⟨vis1, h1, hsub1⟩ := ihV x vis (by omega) hsf.1
        obtain ⟨vis2, h2, hsub2⟩ := ihP rest vis1 (by omega) hsf.2
        refine ⟨vis2, by simp [calcPlainFields, h1, h2], ?_⟩
        intro o ho
        rcases hsub2 o ho with ho' | ho'
        · rcases hsub1 o ho' with ho'' | ho''
          · exact Or.inl ho''
          · exact Or.inr (by simp [collectOidsF, ho''])
        · exact Or.inr (by simp [collectOidsF, ho'])

theorem segFreeCalc (env : ClassEnv) (v : Value) (vis : List Nat)
    (h : segFree env v = true) :
    ∃ vis', calculateSharedMemorySize env v vis = some (0, vis') ∧
      ∀ o ∈ vis', o ∈ vis ∨ o ∈ collectOids v :=
  (segFreeCalcBound env (valSize v)).1 v vis le_rfl h

theorem segFreeCalcL (env : ClassEnv) (es : List Value) (vis : List Nat)
    (h : segFreeL env es = true) :
    ∃ vis', calcList env es vis = some (0, vis') ∧
      ∀ o ∈ vis', o ∈ vis ∨ o ∈ collectOidsL es :=
  (segFreeCalcBound env (valSizeL es)).2.1 es vis le_rfl h

theorem segFreeCalcF (env : ClassEnv) (c : TypeRef) (skip : List String)
    (kvs : List (String × Value)) (vis : List Nat)
    (h : segFreeF env kvs = true) :
    ∃ vis', calcFields env c skip kvs vis = some (0, vis') ∧
      ∀ o ∈ vis', o ∈ vis ∨ o ∈ collectOidsF kvs :=
  (segFreeCalcBound env (valSizeF kvs)).2.2.1 c skip kvs vis le_rfl h

theorem segFreeCalcP (env : ClassEnv) (kvs : List (String × Value))
    (vis : List Nat) (h : segFreeF env kvs = true) :
    ∃ vis', calcPlainFields env kvs vis = some (0, vis') ∧
      ∀ o ∈ vis', o ∈ vis ∨ o ∈ collectOidsF kvs :=
  (segFreeCalcBound env (valSizeF kvs)).2.2.2 kvs vis le_rfl h

theorem soleOwnedCalcBound (env : ClassEnv) (n : Nat) :
    (∀ v vis N, valSize v ≤ n → soleOwned env v = some N →
      (collectOids v).Nodup → (∀ o ∈ collectOids v, o ∉ vis) →
      ∃ vis', calculateSharedMemorySize env v vis = some (N, vis')) ∧
    (∀ es vis N, valSizeL es ≤ n → soleOwnedL env es = some N →
      (collectOidsL es).Nodup → (∀ o ∈ collectOidsL es, o ∉ vis) →
      ∃ vis', calcList env es vis = some (N, vis')) ∧
    (∀ c kvs vis N, valSizeF kvs ≤ n → soleOwnedUserF env c kvs = some N →
      (collectOidsF kvs).Nodup → (∀ o ∈ collectOidsF kvs, o ∉ vis) →
      ∃ vis', calcFields env c [] kvs vis = some (N, vis')) ∧
    (∀ kvs vis N, valSizeF kvs ≤ n → soleOwnedPlainF env kvs = some N →
      (collectOidsF kvs).Nodup → (∀ o ∈ collectOidsF kvs, o ∉ vis) →
      ∃ vis', calcPlainFields env kvs vis = some (N, vis')) := by
  induction n with
  | zero =>
    refine ⟨?_, ?_, ?_, ?_⟩
    · intro v vis N hsz _ _ _
      exact absurd (le_trans (valSize_pos v) hsz) (by omega)
    · intro es vis N hsz hso _ _
      cases es with
      | nil => simp [soleOwnedL] at hso
      | cons v rest => rw [valSizeL_cons] at hsz; omega
    · intro c kvs vis N hsz hso _ _
      cases kvs with
      | nil => simp [soleOwnedUserF] at hso
      | cons kv rest => obtain ⟨k, x⟩ := kv; rw [valSizeF_cons] at hsz; omega
    · intro kvs vis N hsz hso _ _
      cases kvs with
      | nil => simp [soleOwnedPlainF] at hso
      | cons kv rest => obtain ⟨k, x⟩ := kv; rw [valSizeF_cons] at hsz; omega
  | succ n ih =>
    obtain ⟨ihV, ihL, ihF, ihP⟩ := ih
    refine ⟨?_, ?_, ?_, ?_⟩
    · intro v vis N hsz hso hnd hdis
      cases v with
      | vNull => simp [soleOwned] at hso
      | vPrim p => simp [soleOwned] at hso
      | vBytes oid bytes => simp [soleOwned] at hso
      | vBuiltinObj oid nm => simp [soleOwned] at hso
      | vSab oid r => simp [soleOwned] at hso
      | vBuffer oid store =>
        cases store with
        | shared r off len => simp [soleOwned] at hso
        | owned bytes =>
          have hN : N = bytes.length := by
            simpa [soleOwned] using hso.symm
          have hv : oid ∉ vis := hdis oid (by simp [collectOids])
          exact ⟨oid :: vis, by simp [calculateSharedMemorySize, hv, hN]⟩
      | vStruct oid cls buf extra =>
        cases buf with
        | shared r off len => simp [soleOwned] at hso
        | owned bytes =>
          cases hsf : getTypedStructInfo env (some (.userC cls)) with
          | none => simp [soleOwned, hsf] at hso
          | some f =>
            simp only [soleOwned, hsf] at hso
            by_cases hseg : (segFreeF env extra &&
                extra.all (fun kv => !(f.contains kv.1))) = true
            · rw [if_pos hseg] at hso
              rw [Bool.and_eq_true] at hseg
              have hN : N = bytes.length := by simpa using hso.symm
              have hv : oid ∉ vis := hdis oid (by simp [collectOids])
              obtain ⟨vis', h, _⟩ :=
                segFreeCalcF env (.userC cls) f extra (oid :: vis) hseg.1
              exact ⟨vis',
                by simp [calculateSharedMemorySize, hv, hsf, h, hN]⟩
            · rw [if_neg hseg] at hso; cases hso
      | vArray oid es =>
        have hso' : soleOwnedL env es = some N := by simpa [soleOwned] using hso
        have hsz' : valSizeL es ≤ n := by simp [valSize] at hsz; omega
        rw [show collectOids (.vArray oid es) = oid :: collectOidsL es from by
          simp [collectOids], List.nodup_cons] at hnd
        have hv : oid ∉ vis := hdis oid (by simp [collectOids])
        have hdis' : ∀ o ∈ collectOidsL es, o ∉ oid :: vis := by
          intro o ho
          simp only [List.mem_cons]
          push_neg
          exact ⟨fun heq => hnd.1 (heq ▸ ho), hdis o (by simp [collectOids, ho])⟩
        obtain ⟨vis', h⟩ := ihL es (oid :: vis) N hsz' hso' hnd.2 hdis'
        exact ⟨vis', by simp [calculateSharedMemorySize, hv, h]⟩
      | vObject oid clsOpt fields =>
        have hsz' : valSizeF fields ≤ n := by simp [valSize] at hsz; omega
        rw [show collectOids (.vObject oid clsOpt fields) =
            oid :: collectOidsF fields from by simp [collectOids],
          List.nodup_cons] at hnd
        have hv : oid ∉ vis := hdis oid (by simp [collectOids])
        have hdis' : ∀ o ∈ collectOidsF fields, o ∉ oid :: vis := by
          intro o ho
          simp only [List.mem_cons]
          push_neg
          exact ⟨fun heq => hnd.1 (heq ▸ ho), hdis o (by simp [collectOids, ho])⟩
        cases clsOpt with
        | none =>
          have hso' : soleOwnedPlainF env fields = some N := by
            simpa [soleOwned] using hso
          obtain ⟨vis', h⟩ := ihP fields (oid :: vis) N hsz' hso' hnd.2 hdis'
          exact ⟨vis', by simp [calculateSharedMemorySize, hv, h]⟩
        | some nn =>
          rw [show soleOwned env (.vObject oid (some nn) fields) =
              (if (getTypedStructInfo env (some (.userC nn))).isNone
               then soleOwnedUserF env (.userC nn) fields else none) from by
            simp [soleOwned]] at hso
          cases hsf : getTypedStructInfo env (some (.userC nn)) with
          | some f => rw [hsf] at hso; simp at hso
          | none =>
            rw [hsf] at hso
            simp only [Option.isNone_none, if_true] at hso
            obtain ⟨vis', h⟩ :=
              ihF (.userC nn) fields (oid :: vis) N hsz' hso hnd.2 hdis'
            exact ⟨vis', by simp [calculateSharedMemorySize, hv, hsf, h]⟩
    · intro es vis N hsz hso hnd hdis
      cases es with
      | nil => simp [soleOwnedL] at hso
      | cons v rest =>
        rw [valSizeL_cons] at hsz
        rw [show collectOidsL (v :: rest) =
            collectOids v ++ collectOidsL rest from by simp [collectOidsL],
          List.nodup_append] at hnd
        rw [show soleOwnedL env (v :: rest) =
            (match soleOwned env v with
             | some N' => if segFreeL env rest then some N' else none
             | none => if segFree env v then soleOwnedL env rest else none)
          from by simp [soleOwnedL]] at hso
        cases hsov : soleOwned env v with
        | some N' =>
          simp only [hsov] at hso
          by_cases hsegr : segFreeL env rest = true
          · rw [if_pos hsegr] at hso
            have hN : N = N' := by simpa using hso.symm
            obtain ⟨vis1, h1⟩ := ihV v vis N' (by omega) hsov hnd.1
              (fun o ho => hdis o (by simp [collectOidsL, ho]))
            obtain ⟨vis2, h2, _⟩ := segFreeCalcL env rest vis1 hsegr
            exact ⟨vis2, by simp [calcList, h1, h2, hN]⟩
          · rw [if_neg hsegr] at hso; cases hso
        | none =>
          simp only [hsov] at hso
          by_cases hsegv : segFree env v = true
          · rw [if_pos hsegv] at hso
            obtain ⟨vis1, h1, hsub1⟩ := segFreeCalc env v vis hsegv
            have hdis' : ∀ o ∈ collectOidsL rest, o ∉ vis1 := by
              intro o ho hο
              rcases hsub1 o hο with ho' | ho'
              · exact hdis o (by simp [collectOidsL, ho]) ho'
              · exact hnd.2.2 ho' ho
            obtain ⟨vis2, h2⟩ := ihL rest vis1 N (by omega) hso hnd.2.1 hdis'
            exact ⟨vis2, by simp [calcList, h1, h2]⟩
          · rw [if_neg hsegv] at hso; cases hso
    · intro c kvs vis N hsz hso hnd hdis
      cases kvs with
      | nil => simp [soleOwnedUserF] at hso
      | cons kv rest =>
        obtain ⟨k, x⟩ := kv
        rw [valSizeF_cons] at hsz
        rw [show collectOidsF ((k, x) :: rest) =
            collectOids x ++ collectOidsF rest from by simp [collectOidsF],
          List.nodup_append] at hnd
        rw [show soleOwnedUserF env c ((k, x) :: rest) =
            (match soleOwned env x with
             | some N' =>
               if sizeQualifies env c k && segFreeF env rest then some N' else none
             | none =>
               if segFree env x then soleOwnedUserF env c rest else none)
          from by simp [soleOwnedUserF]] at hso
        cases hsov : soleOwned env x with
        | some N' =>
          simp only [hsov] at hso
          by_cases hqr : (sizeQualifies env c k && segFreeF env rest) = true
          · rw [if_pos hqr] at hso
            rw [Bool.and_eq_true] at hqr
            have hN : N = N' := by simpa using hso.symm
            obtain ⟨vis1, h1⟩ := ihV x vis N' (by omega) hsov hnd.1
              (fun o ho => hdis o (by simp [collectOidsF, ho]))
            obtain ⟨vis2, h2, _⟩ := segFreeCalcF env c [] rest vis1 hqr.2
            exact ⟨vis2, by simp [calcFields, hqr.1, h1, h2, hN]⟩
          · rw [if_neg hqr] at hso; cases hso
        | none =>
          simp only [hsov] at hso
          by_cases hsegv : segFree env x = true
          · rw [if_pos hsegv] at hso
            by_cases hq : sizeQualifies env c k
            · obtain ⟨vis1, h1, hsub1⟩ := segFreeCalc env x vis hsegv
              have hdis' : ∀ o ∈ collectOidsF rest, o ∉ vis1 := by
                intro o ho hο
                rcases hsub1 o hο with ho' | ho'
                · exact hdis o (by simp [collectOidsF, ho]) ho'
                · exact hnd.2.2 ho' ho
              obtain ⟨vis2, h2⟩ := ihF c rest vis1 N (by omega) hso hnd.2.1 hdis'
              exact ⟨vis2, by simp [calcFields, hq, h1, h2]⟩
            · obtain ⟨vis2, h2⟩ := ihF c rest vis N (by omega) hso hnd.2.1
                (fun o ho => hdis o (by simp [collectOidsF, ho]))
              exact ⟨vis2, by simp [calcFields, hq, h2]⟩
          · rw [if_neg hsegv] at hso; cases hso
    · intro kvs vis N hsz hso hnd hdis
      cases kvs with
      | nil => simp [soleOwnedPlainF] at hso
      | cons kv rest =>
        obtain ⟨k, x⟩ := kv
        rw [valSizeF_cons] at hsz
        rw [show collectOidsF ((k, x) :: rest) =
            collectOids x ++ collectOidsF rest from by simp [collectOidsF],
          List.nodup_append] at hnd
        rw [show soleOwnedPlainF env ((k, x) :: rest) =
            (match soleOwned env x with
             | some N' => if segFreeF env rest then some N' else none
             | none => if segFree env x then soleOwnedPlainF env rest else none)
          from by simp [soleOwnedPlainF]] at hso
        cases hsov : soleOwned env x with
        | some N' =>
          simp only [hsov] at hso
          by_cases hsegr : segFreeF env rest = true
          · rw [if_pos hsegr] at hso
            have hN : N = N' := by simpa using hso.symm
            obtain ⟨vis1, h1⟩ := ihV x vis N' (by omega) hsov hnd.1
              (fun o ho => hdis o (by simp [collectOidsF, ho]))
            obtain ⟨vis2, h2, _⟩ := segFreeCalcP env rest vis1 hsegr
            exact ⟨vis2, by simp [calcPlainFields, h1, h2, hN]⟩
          · rw [if_neg hsegr] at hso; cases hso
        | none =>
          simp only [hsov] at hso
          by_cases hsegv : segFree env x = true
          · rw [if_pos hsegv] at hso
            obtain ⟨vis1, h1, hsub1⟩ := segFreeCalc env x vis hsegv
            have hdis' : ∀ o ∈ collectOidsF rest, o ∉ vis1 := by
              intro o ho hο
              rcases hsub1 o hο with ho' | ho'
              · exact hdis o (by simp [collectOidsF, ho]) ho'
              · exact hnd.2.2 ho' ho
            obtain ⟨vis2, h2⟩ := ihP rest vis1 N (by omega) hso hnd.2.1 hdis'
            exact ⟨vis2, by simp [calcPlainFields, h1, h2]⟩
          · rw [if_neg hsegv] at hso; cases hso

/-- C7: `calculateSharedMemorySize` returns exactly 0 for every value all
of whose buffer/struct backing stores are already backed by shared memory
(`fullyShared`), and returns exactly `N` for every value whose only
shared-memory segment is a single unshared owned buffer of length `N`
(`soleOwned = some N`; everything else segment-free), for any object graph
with distinct object identities. -/
theorem calculateSharedMemorySize_zero_and_length (env : ClassEnv)
    (v w : Value) (N : Nat)
    (hfull : fullyShared env v = true)
    (hsole : soleOwned env w = some N)
    (hnd : (collectOids w).Nodup) :
    (∃ vis', calculateSharedMemorySize env v [] = some (0, vis')) ∧
    (∃ vis', calculateSharedMemorySize env w [] = some (N, vis')) :=
  ⟨(fullySharedCalcBound env (valSize v)).1 v [] le_rfl hfull,
   (soleOwnedCalcBound env (valSize w)).1 w [] N le_rfl hsole hnd
     (by simp)⟩

/-- A fully shared sample: an `S` struct instance with shared backing whose
extra fields are a string and a shared-backed buffer view. -/
def fullySharedSample : Value :=
  .vStruct 7 "S" (.shared ⟨3, [1, 2, 3, 4]⟩ 0 4)
    [("tag", .vPrim (.str "x")), ("buf", .vBuffer 8 (.shared ⟨3, [1, 2, 3, 4]⟩ 0 2))]

/-- A value whose only segment is one owned 3-byte buffer: a plain object
with a single buffer field. -/
def soleOwnedSample : Value :=
  .vObject 9 none [("data", .vBuffer 10 (.owned [1, 2, 3]))]

theorem calculateSharedMemorySize_zero_and_length_witness :
    (fullyShared sampleEnv fullySharedSample = true ∧
      (∃ vis', calculateSharedMemorySize sampleEnv fullySharedSample [] =
        some (0, vis'))) ∧
    (soleOwned sampleEnv soleOwnedSample = some 3 ∧
      (∃ vis', calculateSharedMemorySize sampleEnv soleOwnedSample [] =
        some (3, vis'))) := by
  have hfull : fullyShared sampleEnv fullySharedSample = true := by
    simp [fullyShared, fullySharedF, fullySharedSample, sampleEnv,
      getTypedStructInfo, lookupClass]
  have hsole : soleOwned sampleEnv soleOwnedSample = some 3 := by
    simp [soleOwned, soleOwnedPlainF, soleOwnedSample, segFreeF]
  have hnd : (collectOids soleOwnedSample).Nodup := by
    simp [collectOids, collectOidsF, soleOwnedSample]
  have h := calculateSharedMemorySize_zero_and_length sampleEnv
    fullySharedSample soleOwnedSample 3 hfull hsole hnd
  exact ⟨⟨hfull, h.1⟩, ⟨hsole, h.2⟩⟩

/-! ## The `@Shared` decorator: registration-time validation -/

inductive SharedErr where
  | notCtorParam
  | noTypeInfo (index : Nat)
  | unshareable (index : Nat) (typeName : String)
  deriving Repr

/-- The `Shared` decorator of the shared-decorator module that also holds
`hasSharedMemorySegments` (part_018:131): rejects non-constructor
positions, resolves the type from the factory or `design:paramtypes`,
requires type information, and fails registration with a descriptive
`TypeError` if the type has no shared memory segments; otherwise appends
the parameter index to `sharedParams`.  `none` = the scan ran out of fuel
(never happens with enough fuel). -/
def SharedLegacy (env : ClassEnv) (fuel : Nat)
    (propertyKey : Option String) (parameterIndex : Nat)
    (factory : Option TypeRef) (paramType : Option TypeRef)
    (registered : List Nat) :
    Option (Except SharedErr (List Nat)) :=
  if propertyKey.isSome then some (.error .notCtorParam)
  else
    let actualType := match factory with
      | some t => some t
      | none => paramType
    match actualType with
    | none => some (.error (.noTypeInfo parameterIndex))
    | some t =>
      match hasSharedMemorySegments env fuel t [] with
      | some (true, _) => some (.ok (registered ++ [parameterIndex]))
      | some (false, _) => some (.error (.unshareable parameterIndex t.name))
      | none => none

/-- The `Shared` decorator of `src/utility/shared-decorator.ts` (lines
42–71): rejects non-constructor positions, requires type information when
no factory is given, then registers the parameter index in `sharedParams`
and registers the resolved factory as the parameter's `TransportType` —
with no `hasSharedMemorySegments` validation at all. -/
def SharedCurrent (propertyKey : Option String) (parameterIndex : Nat)
    (factory : Option TypeRef) (paramType : Option TypeRef)
    (registered : List Nat) :
    Except SharedErr (List Nat × TransporterInfo) :=
  if propertyKey.isSome then .error .notCtorParam
  else
    match factory with
    | some t => .ok (registered ++ [parameterIndex], .clsT false t)
    | none =>
      match paramType with
      | none => .error (.noTypeInfo parameterIndex)
      | some t => .ok (registered ++ [parameterIndex], .clsT false t)

/-- A class with no shared-memory segments (the test's `NoSharedMemory`:
a number field, no typed-struct base). -/
def noSharedEnv : ClassEnv :=
  [("NoSharedMemory",
    { structFields := none,
      props := [("value", { transporter := none,
                            designType := some (.builtinC "Number") })] })]

/-- C9: designating `@Shared(() => NoSharedMemory)` on constructor
parameter 0 of a worker class: the type fails `hasSharedMemorySegments`
(first conjunct), and the older decorator fails registration immediately
with the descriptive unshareable error (second conjunct) — but the current
`shared-decorator.ts` decorator registers the parameter successfully,
performing no shared-segment validation at all (third conjunct), although
the repository's own test (`tests/shared-param.spec.ts`) expects the
decoration to throw 'does not contain any shared memory segments'. -/
theorem shared_decorator_missing_validation :
    (hasSharedMemorySegments noSharedEnv 10 (.userC "NoSharedMemory") []).map
        Prod.fst = some false ∧
    SharedLegacy noSharedEnv 10 none 0 (some (.userC "NoSharedMemory")) none []
      = some (.error (.unshareable 0 "NoSharedMemory")) ∧
    SharedCurrent none 0 (some (.userC "NoSharedMemory")) none []
      = .ok ([0], .clsT false (.userC "NoSharedMemory")) := by
  refine ⟨?_, ?_, ?_⟩
  · simp [hasSharedMemorySegments, hasSharedKeys, noSharedEnv,
      getPropertyDesignType, getPropertyTransporter, getTypedStructInfo,
      lookupClass, transporterKeys, isBuiltinTypeOpt, List.find?]
  · simp [SharedLegacy, hasSharedMemorySegments, hasSharedKeys, noSharedEnv,
      getPropertyDesignType, getPropertyTransporter, getTypedStructInfo,
      lookupClass, transporterKeys, isBuiltinTypeOpt, List.find?, TypeRef.name]
  · rfl

/-! ## `toShared` (to-shared.ts): converting a value to shared memory -/

/-- Allocator/visited state threaded through `toShared`'s `convert`:
`fresh` is the next unused identity (used for both new object identities
and new region identities; callers seed it above everything in the input),
`visited` the `WeakSet` of already-visited object identities. -/
structure TSState where
  fresh : Nat
  visited : List Nat
  deriving DecidableEq, Repr

/-- `Buffer.prototype.copy` into offset 0: `min src.length dst.length`
bytes of `src` overwrite the front of `dst`. -/
def bufCopy (src dst : List Nat) : List Nat :=
  src.take dst.length ++ dst.drop (min src.length dst.length)

/-- `shouldConvertWithTransporter` (to-shared.ts 42–58): no transporter —
no conversion; `'encoder'` — no conversion (manual encoding); `'class'` —
convert iff the factory's class is not builtin; anything else — no. -/
def shouldConvertWithTransporter : Option TransporterInfo → Bool
  | none => false
  | some (.encoderT _ _) => false
  | some (.clsT _ target) => !(isBuiltinTypeOpt (some target))
  | some .noopT => false

mutual

/-- `convert` inside `toShared` (to-shared.ts 60–221).  `opt` is
`options.useExistingSharedArrayBuffer`.  Null, primitives, visited
objects, shared-backed buffers, `SharedArrayBuffer`s, typed arrays and
builtins return as-is; an owned buffer becomes a fresh `Buffer` over a
freshly allocated shared region of the same length with the bytes copied;
arrays convert their elements in place; a typed-struct instance always
becomes a NEW instance over a newly allocated (or the provided) shared
region with the raw bytes copied, its non-layout fields assigned onto the
new instance (converted only when the transporter qualifies); a user-class
instance is mutated in place (same identity), converting only
transporter-qualified fields; a plain object converts every field in
place.  `none` models the source throwing: `structInfo.structCls.raw`
applied to an instance of a struct-registered class without struct
storage. -/
def tsConvert (env : ClassEnv) (opt : Option Region) (v : Value)
    (st : TSState) : Option (Value × TSState) :=
  match v with
  | .vNull => some (.vNull, st)
  | .vPrim p => some (.vPrim p, st)
  | .vBuffer oid store =>
    if oid ∈ st.visited then some (.vBuffer oid store, st)
    else
      match store with
      | .shared r off len => some (.vBuffer oid (.shared r off len), st)
      | .owned bytes =>
        some (.vBuffer (st.fresh + 1) (.shared ⟨st.fresh, bytes⟩ 0 bytes.length),
              { st with fresh := st.fresh + 2 })
  | .vSab oid r =>
    if oid ∈ st.visited then some (.vSab oid r, st) else some (.vSab oid r, st)
  | .vArray oid elems =>
    if oid ∈ st.visited then some (.vArray oid elems, st)
    else
      (tsConvertL env opt elems { st with visited := oid :: st.visited }).map
        (fun r => (.vArray oid r.1, r.2))
  | .vBytes oid bs =>
    if oid ∈ st.visited then some (.vBytes oid bs, st)
    else some (.vBytes oid bs, st)
  | .vBuiltinObj oid n =>
    if oid ∈ st.visited then some (.vBuiltinObj oid n, st)
    else some (.vBuiltinObj oid n, st)
  | .vStruct oid cls buf extra =>
    if oid ∈ st.visited then some (.vStruct oid cls buf extra, st)
    else
      match getTypedStructInfo env (some (.userC cls)) with
      | some layout =>
        let rawBytes := match buf with
          | .owned bs => bs
          | .shared r off len => (r.bytes.drop off).take len
        match opt with
        | some exReg =>
          (tsConvertF env opt (.userC cls) layout extra
              { fresh := st.fresh + 1, visited := oid :: st.visited }).map
            (fun r =>
              (.vStruct st.fresh cls
                (.shared ⟨exReg.rid, bufCopy rawBytes exReg.bytes⟩ 0
                  exReg.bytes.length) r.1, r.2))
        | none =>
          (tsConvertF env opt (.userC cls) layout extra
              { fresh := st.fresh + 2, visited := oid :: st.visited }).map
            (fun r =>
              (.vStruct (st.fresh + 1) cls
                (.shared ⟨st.fresh, rawBytes⟩ 0 rawBytes.length) r.1, r.2))
      | none =>
        (tsConvertF env opt (.userC cls) [] extra
            { st with visited := oid :: st.visited }).map
          (fun r => (.vStruct oid cls buf r.1, r.2))
  | .vObject oid clsOpt fields =>
    if oid ∈ st.visited then some (.vObject oid clsOpt fields, st)
    else
      match clsOpt with
      | some n =>
        match getTypedStructInfo env (some (.userC n)) with
        | some _ => none
        | none =>
          (tsConvertF env opt (.userC n) [] fields
              { st with visited := oid :: st.visited }).map
            (fun r => (.vObject oid (some n) r.1, r.2))
      | none =>
        (tsConvertAllF env opt fields { st with visited := oid :: st.visited }).map
          (fun r => (.vObject oid none r.1, r.2))

/-- The array loop: `value[i] = convert(value[i])`. -/
def tsConvertL (env : ClassEnv) (opt : Option Region) (elems : List Value)
    (st : TSState) : Option (List Value × TSState) :=
  match elems with
  | [] => some ([], st)
  | x :: rest => do
    let r1 ← tsConvert env opt x st
    let r2 ← tsConvertL env opt rest r1.2
    some (r1.1 :: r2.1, r2.2)

/-- The metadata-filtered field loop shared by the struct branch (where
layout fields are in `skip`) and the user-class branch (`skip = []`): a
field is converted only when `shouldConvertWithTransporter` accepts its
property transporter, otherwise it is carried over unchanged. -/
def tsConvertF (env : ClassEnv) (opt : Option Region) (c : TypeRef)
    (skip : List String) (kvs : List (String × Value)) (st : TSState) :
    Option (List (String × Value) × TSState) :=
  match kvs with
  | [] => some ([], st)
  | (k, x) :: rest =>
    if skip.contains k then tsConvertF env opt c skip rest st
    else if shouldConvertWithTransporter (getPropertyTransporter env c k) then do
      let r1 ← tsConvert env opt x st
      let r2 ← tsConvertF env opt c skip rest r1.2
      some ((k, r1.1) :: r2.1, r2.2)
    else do
      let r2 ← tsConvertF env opt c skip rest st
      some ((k, x) :: r2.1, r2.2)

/-- The plain-object loop: every field is converted. -/
def tsConvertAllF (env : ClassEnv) (opt : Option Region)
    (kvs : List (String × Value)) (st : TSState) :
    Option (List (String × Value) × TSState) :=
  match kvs with
  | [] => some ([], st)
  | (k, x) :: rest => do
    let r1 ← tsConvert env opt x st
    let r2 ← tsConvertAllF env opt rest r1.2
    some ((k, r1.1) :: r2.1, r2.2)

end

/-- `toShared(inst, options)` (to-shared.ts 32–224): runs `convert` with a
fresh empty `WeakSet`; `seed` seeds the identity allocator (callers pick
it above every identity occurring in the input). -/
def toShared (env : ClassEnv) (opt : Option Region) (v : Value)
    (seed : Nat) : Option (Value × TSState) :=
  tsConvert env opt v { fresh := seed, visited := [] }

@[simp] theorem optBindSome {α β : Type} (a : α) (f : α → Option β) :
    (some a >>= f) = f a := rfl

@[simp] theorem optBindNone {α β : Type} (f : α → Option β) :
    ((none : Option α) >>= f) = none := rfl

@[simp] theorem optBindSomeB {α β : Type} (a : α) (f : α → Option β) :
    Option.bind (some a) f = f a := rfl

@[simp] theorem optBindNoneB {α β : Type} (f : α → Option β) :
    Option.bind none f = none := rfl

/-- Fields whose transporter does not qualify for conversion (and that are
not skipped layout fields) survive `toShared`'s field loop untouched: the
very same key/value pair is still present afterwards. -/
theorem tsConvertF_preserves (env : ClassEnv) (opt : Option Region)
    (c : TypeRef) (skip : List String) :
    ∀ (kvs : List (String × Value)) (st : TSState) fs st',
      tsConvertF env opt c skip kvs st = some (fs, st') →
      ∀ k x, (k, x) ∈ kvs → skip.contains k = false →
        shouldConvertWithTransporter (getPropertyTransporter env c k) = false →
        (k, x) ∈ fs := by
  intro kvs
  induction kvs with
  | nil =>
    intro st fs st' h k x hm _ _
    simp at hm
  | cons kv rest ih =>
    intro st fs st' h k x hm hsk hsc
    obtain ⟨k0, x0⟩ := kv
    simp only [tsConvertF] at h
    rcases List.mem_cons.mp hm with hm | hm
    · rcases hm with ⟨rfl, rfl⟩
      have hsk' : ¬(skip.contains k = true) := by simpa using hsk
      have hsc' :
          ¬(shouldConvertWithTransporter (getPropertyTransporter env c k) = true) := by
        simpa using hsc
      rw [if_neg hsk', if_neg hsc'] at h
      rcases hr : tsConvertF env opt c skip rest st with _ | r2 <;> rw [hr] at h
      · simp only [optBindNone] at h
        exact Option.noConfusion h
      · simp only [optBindSome, Option.some.injEq, Prod.mk.injEq] at h
        rw [← h.1]
        exact List.mem_cons_self _ _
    · by_cases h0 : skip.contains k0
      · rw [if_pos h0] at h
        exact ih st fs st' h k x hm hsk hsc
      · rw [if_neg h0] at h
        by_cases h1 :
            shouldConvertWithTransporter (getPropertyTransporter env c k0) = true
        · rw [if_pos h1] at h
          rcases hx1 : tsConvert env opt x0 st with _ | r1 <;> rw [hx1] at h
          · simp only [optBindNone] at h
            exact Option.noConfusion h
          · simp only [optBindSome] at h
            rcases hr : tsConvertF env opt c skip rest r1.2 with _ | r2 <;>
              rw [hr] at h
            · simp only [optBindNone] at h
              exact Option.noConfusion h
            · simp only [optBindSome, Option.some.injEq, Prod.mk.injEq] at h
              rw [← h.1]
              exact List.mem_cons_of_mem _ (ih r1.2 r2.1 r2.2 hr k x hm hsk hsc)
        · rw [if_neg h1] at h
          rcases hr : tsConvertF env opt c skip rest st with _ | r2 <;> rw [hr] at h
          · simp only [optBindNone] at h
            exact Option.noConfusion h
          · simp only [optBindSome, Option.some.injEq, Prod.mk.injEq] at h
            rw [← h.1]
            exact List.mem_cons_of_mem _ (ih st r2.1 r2.2 hr k x hm hsk hsc)

/-- C8 (amended): what `toShared` actually does, shape by shape.
(1) An owned raw buffer yields a NEW `Buffer` (fresh identity) bound to a
newly allocated shared region of identical size with the original bytes
copied.  (2)/(3) An already-shared buffer view and a `SharedArrayBuffer`
are returned untouched.  (4) A typed-struct instance yields a NEW instance
(fresh identity) bound to a newly allocated shared region holding its raw
bytes — regardless of whether its backing was already shared (see the
counterexample for that part of the original claim).  (5) A plain
(non-struct) class instance is returned with the SAME identity, mutated in
place: every field whose transporter does not qualify for conversion is
still present, untouched. -/
theorem toShared_behavior (env : ClassEnv) (st : TSState)
    (oid : Nat) (bytes : List Nat) (r : Region) (off len : Nat)
    (cls n : String) (layout : List String)
    (extra fields : List (String × Value))
    (hb : oid ∉ st.visited)
    (hs : getTypedStructInfo env (some (.userC cls)) = some layout)
    (hn : getTypedStructInfo env (some (.userC n)) = none)
    (hx : ∃ p, tsConvertF env none (.userC cls) layout extra
            { fresh := st.fresh + 2, visited := oid :: st.visited } = some p) :
    tsConvert env none (.vBuffer oid (.owned bytes)) st =
      some (.vBuffer (st.fresh + 1) (.shared ⟨st.fresh, bytes⟩ 0 bytes.length),
            { st with fresh := st.fresh + 2 }) ∧
    tsConvert env none (.vBuffer oid (.shared r off len)) st =
      some (.vBuffer oid (.shared r off len), st) ∧
    tsConvert env none (.vSab oid r) st = some (.vSab oid r, st) ∧
    (∃ fs st', tsConvert env none (.vStruct oid cls (.owned bytes) extra) st =
      some (.vStruct (st.fresh + 1) cls
        (.shared ⟨st.fresh, bytes⟩ 0 bytes.length) fs, st')) ∧
    (∀ res st',
      tsConvert env none (.vObject oid (some n) fields) st = some (res, st') →
      ∃ fs, res = .vObject oid (some n) fs ∧
        ∀ k x, (k, x) ∈ fields →
          shouldConvertWithTransporter (getPropertyTransporter env (.userC n) k)
            = false →
          (k, x) ∈ fs) := by
  refine ⟨?_, ?_, ?_, ?_, ?_⟩
  · simp [tsConvert, hb]
  · simp [tsConvert, hb]
  · simp [tsConvert]
  · obtain ⟨⟨fs, st2⟩, hp⟩ := hx
    exact ⟨fs, st2, by simp [tsConvert, hb, hs, hp]⟩
  · intro res st' h
    simp only [tsConvert] at h
    rw [if_neg hb, hn] at h
    rcases hp : tsConvertF env none (.userC n) [] fields
        { st with visited := oid :: st.visited } with _ | p
    · rw [hp] at h
      simp at h
    · rw [hp] at h
      simp only [Option.map_some', Option.some.injEq, Prod.mk.injEq] at h
      refine ⟨p.1, h.1.symm, ?_⟩
      intro k x hm hsc
      exact tsConvertF_preserves env none (.userC n) [] fields _ p.1 p.2
        (by simpa using hp) k x hm rfl hsc

/-- Witness for the amended `toShared` behaviour at the sample environment:
`S` is the typed-struct class (layout `["value"]`), `C` the plain class;
an owned 2-byte buffer and an `S` instance are both rebound to freshly
allocated shared regions. -/
theorem toShared_behavior_witness :
    (0 ∉ ([] : List Nat)) ∧
    getTypedStructInfo sampleEnv (some (.userC "S")) = some ["value"] ∧
    getTypedStructInfo sampleEnv (some (.userC "C")) = none ∧
    tsConvert sampleEnv none (.vBuffer 0 (.owned [5, 6])) ⟨50, []⟩ =
      some (.vBuffer 51 (.shared ⟨50, [5, 6]⟩ 0 2), ⟨52, []⟩) ∧
    (∃ fs st',
      tsConvert sampleEnv none (.vStruct 0 "S" (.owned [5, 6]) []) ⟨50, []⟩ =
        some (.vStruct 51 "S" (.shared ⟨50, [5, 6]⟩ 0 2) fs, st')) := by
  have hb : (0 : Nat) ∉ ([] : List Nat) := by simp
  have hs : getTypedStructInfo sampleEnv (some (.userC "S")) = some ["value"] := by
    simp [sampleEnv, getTypedStructInfo, lookupClass, List.find?]
  have hn : getTypedStructInfo sampleEnv (some (.userC "C")) = none := by
    simp [sampleEnv, getTypedStructInfo, lookupClass, List.find?]
  have hx : ∃ p, tsConvertF sampleEnv none (.userC "S") ["value"] []
      { fresh := 52, visited := [0] } = some p :=
    ⟨([], { fresh := 52, visited := [0] }), by simp [tsConvertF]⟩
  have H := toShared_behavior sampleEnv ⟨50, []⟩ 0 [5, 6] ⟨0, []⟩ 0 0 "S" "C"
    ["value"] [] [] hb hs hn hx
  exact ⟨hb, hs, hn, H.1, H.2.2.2.1⟩

/-- An `S` struct instance whose backing is already a shared-region view:
by the claim it should come back from `toShared` completely untouched. -/
def sharedStructSample : Value :=
  .vStruct 1 "S" (.shared ⟨0, [7, 8, 9, 10]⟩ 0 4) []

/-- C8 counterexample: `toShared` of an already-shared typed-struct
instance is NOT the untouched input — the struct branch of to-shared.ts
never checks whether the backing is already shared, so it allocates a
fresh `SharedArrayBuffer`, copies the raw bytes, and builds a new
instance: the result has a different object identity (101, not 1) and a
different region identity (100, not 0) from the input. -/
theorem toShared_rematerializes_already_shared_struct :
    toShared sampleEnv none sharedStructSample 100 =
      some (.vStruct 101 "S" (.shared ⟨100, [7, 8, 9, 10]⟩ 0 4) [],
            ⟨102, [1]⟩) ∧
    Value.vStruct 101 "S" (.shared ⟨100, [7, 8, 9, 10]⟩ 0 4) []
      ≠ sharedStructSample := by
  constructor
  · simp [toShared, tsConvert, tsConvertF, sharedStructSample, sampleEnv,
      getTypedStructInfo, lookupClass, List.find?]
  · simp [sharedStructSample]

/-! ## Encoding cyclic value graphs

`Value` is a tree, so it cannot represent the cyclic inputs of the
circular-reference tests; the fragment of the object graph those tests
build (class instances whose fields are null, primitives or references to
other class instances) is modelled here as an explicit heap. -/

/-- A heap value: `null`, a primitive, or a reference into the object
heap.  Unlike `Value`, references can form cycles. -/
inductive HVal where
  | hNull
  | hPrim (p : Prim)
  | hRef (addr : Nat)
  deriving DecidableEq, Repr

/-- A heap object: a user-class instance (constructor name plus its own
enumerable fields). -/
structure HObj where
  cls : String
  fields : List (String × HVal)
  deriving DecidableEq, Repr

def lookupHeap (heap : List (Nat × HObj)) (a : Nat) : Option HObj :=
  (List.find? (fun p => p.1 = a) heap).map Prod.snd

/-- `encodeValue` (transport.ts / the `SharedArrayBuffer`-aware variant)
restricted to this heap fragment.  On a user-class instance the source's
custom-class branch recurses into every field unconditionally
(`data[key] = encodeValue(value[key], …)`); it maintains NO visited set
and contains no circular-reference check or error of any kind, so on a
cyclic graph its only bound is the call stack.  `fuel` is that stack
budget: `none` means the budget was exhausted, and a result that is `none`
for EVERY budget is a recursion that never returns (in Node.js, a stack
overflow).  Dangling references cannot occur in the graphs considered. -/
def encodeHeap (heap : List (Nat × HObj)) : Nat → HVal → Option Encoded
  | 0, _ => none
  | _ + 1, .hNull => some (.raw .vNull)
  | _ + 1, .hPrim p => some (.raw (.vPrim p))
  | fuel + 1, .hRef a =>
    match lookupHeap heap a with
    | none => some (.raw .vNull)
    | some obj =>
      (obj.fields.mapM (fun kv =>
        (encodeHeap heap fuel kv.2).map (fun e => (kv.1, e)))).map
        (fun data => Encoded.custom obj.cls data)

/-- The cyclic graph built by the circular-reference transport test:
`a = new Node(10); b = new Node(20); a.next = b; b.next = a`. -/
def nodeHeap : List (Nat × HObj) :=
  [(1, { cls := "Node",
         fields := [("value", .hPrim (.num 10)), ("next", .hRef 2)] }),
   (2, { cls := "Node",
         fields := [("value", .hPrim (.num 20)), ("next", .hRef 1)] })]

/-- C4: the claim fails against the code.  `encodeValue` keeps no
`visited` set and has no `CircularReference` outcome at all, so a
top-level encode of the two-`Node` cycle does not fail with a
`CircularReference` error — it recurses without bound: for EVERY stack
budget, encoding either node exhausts the budget (`encodeHeap … = none`),
i.e. the recursion never returns (a stack overflow in Node.js).  The
repository's own test (tests/transport.spec.ts, 'should detect circular
references…') and the README's Circular Reference Detection section
require the encode to reject with 'Circular reference detected'. -/
theorem encode_cycle_diverges (fuel : Nat) :
    encodeHeap nodeHeap fuel (.hRef 1) = none ∧
    encodeHeap nodeHeap fuel (.hRef 2) = none := by
  induction fuel using Nat.strong_induction_on with
  | _ fuel ih =>
    match fuel with
    | 0 => exact ⟨rfl, rfl⟩
    | k + 1 =>
      have ihk := ih k (Nat.lt_succ_self k)
      have l1 : lookupHeap nodeHeap 1 =
          some ⟨"Node", [("value", HVal.hPrim (Prim.num 10)), ("next", HVal.hRef 2)]⟩ := by
        simp [lookupHeap, nodeHeap, List.find?]
      have l2 : lookupHeap nodeHeap 2 =
          some ⟨"Node", [("value", HVal.hPrim (Prim.num 20)), ("next", HVal.hRef 1)]⟩ := by
        simp [lookupHeap, nodeHeap, List.find?]
      have hp : ∀ p, encodeHeap nodeHeap k (.hPrim p) = none ∨
          encodeHeap nodeHeap k (.hPrim p) = some (.raw (.vPrim p)) := by
        intro p
        match k with
        | 0 => exact Or.inl rfl
        | j + 1 => exact Or.inr rfl
      rcases hp (Prim.num 10) with h10 | h10 <;>
        rcases hp (Prim.num 20) with h20 | h20 <;>
        exact ⟨by simp [encodeHeap, l1, List.mapM.loop, ihk.2, h10],
               by simp [encodeHeap, l2, List.mapM.loop, ihk.1, h20]⟩

/-- The divergence at a concrete stack budget, by the theorem itself. -/
theorem encode_cycle_diverges_witness :
    encodeHeap nodeHeap 7 (.hRef 1) = none :=
  (encode_cycle_diverges 7).1

end Yuzu
